import Mathlib

/-!
# Verification of the finance-api ledger and smart-analytics core

Shallow embedding of `src/transactions/transactions.service.ts` (balance
mutation protocol) and the three smart-analytics services
(`auto-categorization`, `spending-prediction`, `anomaly-detection`).

Conventions of the embedding:
* JS `number` values are modelled as `ℚ` (the code does exact decimal-style
  arithmetic on amounts; floating-point rounding is not load-bearing for any
  property proved here).  `Math.sqrt` forces `ℝ` in the few places it occurs;
  those definitions carry a certifying `Decidable` instance obtained from an
  equivalent rational inequality.
* Nullable JS fields are `Option`; JS truthiness of a nullable numeric field
  (`if (x)`) is `x ≠ null ∧ x ≠ 0`, of an optional string `x ≠ null ∧ x ≠ ""`.
* Database providers (`findByPeriod`, `findRecent`, `findAll`, …) are external
  collaborators; functions take their output lists as arguments, mirroring the
  provider contracts stated in the service code (`isPaid`-filtered, ordered).
* `AccountsService` (including `updateBalance`) is embedded from its source,
  which sits after the document separator inside
  `src/transactions/transactions.service.spec.ts`: a partial account store,
  `NotFoundException` on a missing account, `balance = Number(balance) +
  amount` on an existing one.
* Thrown JS exceptions are `Except` errors; a `try`/`catch` is a `match` on
  the wrapped computation.
-/

namespace FinanceApi

/-- Transaction type enum (`src/transactions/entities/transaction.entity.ts`). -/
inductive TransactionType where
  | expense
  | income
  | transfer
deriving DecidableEq, Repr

open TransactionType

/-- A calendar date, mirroring a JS `Date` at day granularity: `year`,
0-based `month0` (as returned by `getMonth()`), 1-based `day`. -/
structure Date where
  year : ℤ
  month0 : ℕ
  day : ℕ
deriving DecidableEq, Repr

/-- Gregorian leap year rule. -/
def isLeap (y : ℤ) : Bool :=
  (y % 4 = 0 && y % 100 ≠ 0) || y % 400 = 0

/-- Days in a (0-based) month of a given year. -/
def daysInMonth (y : ℤ) (m0 : ℕ) : ℕ :=
  if m0 = 1 then (if isLeap y then 29 else 28)
  else if m0 = 3 ∨ m0 = 5 ∨ m0 = 8 ∨ m0 = 10 then 30
  else 31

/-- JS `d.setMonth(d.getMonth() + k)`: shift the month field and normalise.
When the day of month exceeds the target month's length, JS rolls the excess
into the following month (e.g. Aug 31 + 1 month = "Sep 31" = Oct 1). -/
def addMonths (d : Date) (k : ℤ) : Date :=
  let t : ℤ := d.year * 12 + d.month0 + k
  let y : ℤ := t.ediv 12
  let m : ℕ := (t.emod 12).toNat
  let dim : ℕ := daysInMonth y m
  if dim < d.day then
    if m = 11 then ⟨y + 1, 0, d.day - dim⟩ else ⟨y, m + 1, d.day - dim⟩
  else ⟨y, m, d.day⟩

/-- Linearisation of a date that is strictly monotone in the lexicographic
(year, month, day) order for any day value `≤ 31`; `Date` comparison (JS
compares millisecond timestamps; both operands here carry the same
time-of-day) is comparison of these keys. -/
def Date.key (d : Date) : ℤ :=
  (d.year * 12 + d.month0) * 32 + d.day

/-- JS `a <= b` on two `Date`s holding the same time-of-day. -/
def dateLe (a b : Date) : Bool :=
  a.key ≤ b.key

/-- A structurally valid calendar date. -/
def Date.Valid (d : Date) : Prop :=
  d.month0 < 12 ∧ 1 ≤ d.day ∧ d.day ≤ daysInMonth d.year d.month0

instance (d : Date) : Decidable d.Valid := by
  unfold Date.Valid; infer_instance

/-- Days since the Unix epoch of a calendar date (standard civil-from-days
conversion); `Date.getTime()` of a midnight date is `epochDay * 86400000`. -/
def epochDay (dt : Date) : ℤ :=
  let m : ℕ := dt.month0 + 1
  let y : ℤ := if m ≤ 2 then dt.year - 1 else dt.year
  let era : ℤ := y.ediv 400
  let yoe : ℤ := y - era * 400
  let doy : ℤ := (153 * (m + (if 2 < m then -3 else 9 : ℤ)) + 2).ediv 5 + dt.day - 1
  let doe : ℤ := yoe * 365 + yoe.ediv 4 - yoe.ediv 100 + doy
  era * 146097 + doe - 719468

/-- Millisecond timestamp of a (midnight) date, as produced by `getTime()`. -/
def dateMs (d : Date) : ℚ :=
  (epochDay d : ℚ) * 86400000

/-- The `Transaction` entity, restricted to the fields the analysed services
read.  `description` is a nullable column (`@Column({ nullable: true })`,
optional on the create DTO), so it is `Option String`: `none` is a
SQL-`NULL`, on which the services' `description.toLowerCase()` calls throw a
`TypeError`.  `destinationAccountId` and `categoryId` are nullable columns. -/
structure Tx where
  id : ℕ
  amount : ℚ
  type : TransactionType
  description : Option String
  date : Date
  isPaid : Bool
  accountId : ℕ
  destinationAccountId : Option ℕ
  categoryId : Option ℕ
  userId : ℕ
deriving DecidableEq, Repr

/-- Propositional equality of `Except` values is decidable componentwise. -/
def exceptDecEq {ε α : Type} [DecidableEq ε] [DecidableEq α] :
    DecidableEq (Except ε α)
  | .error e, .error f =>
    if h : e = f then .isTrue (congrArg Except.error h)
    else .isFalse fun hc => h (Except.error.inj hc)
  | .error _, .ok _ => .isFalse Except.noConfusion
  | .ok _, .error _ => .isFalse Except.noConfusion
  | .ok a, .ok b =>
    if h : a = b then .isTrue (congrArg Except.ok h)
    else .isFalse fun hc => h (Except.ok.inj hc)

instance {ε α : Type} [DecidableEq ε] [DecidableEq α] :
    DecidableEq (Except ε α) := exceptDecEq

/-- The `Category` entity, restricted to the fields the services read. -/
structure Category where
  id : ℕ
  name : String
deriving DecidableEq, Repr

/-- JS truthiness of a nullable numeric field: non-null and non-zero. -/
def optTruthy : Option ℕ → Bool
  | none => false
  | some n => n ≠ 0

/-! ## Ledger: `TransactionsService` balance mutation -/

namespace Ledger

/-- The global account store: the balance of each existing account id (across
all users — `AccountsService.updateBalance` looks its account up by id
alone), `none` for a non-existent account. -/
def Balances := ℕ → Option ℚ

/-- Error kinds surfaced by the services (NestJS exception classes). -/
inductive Err where
  | notFound
  | badRequest
  | internalError
deriving DecidableEq, Repr

/-- `AccountsService.updateBalance(accountId, amount)` (accounts.service.ts,
embedded after the document separator in
transactions/transactions.service.spec.ts): `findOne({ where: { id } })`,
`NotFoundException` when absent, then `balance = Number(balance) + amount`
and save (`Number(·)` on the numeric column value is the identity here). -/
def updateBalance (b : Balances) (accountId : ℕ) (amount : ℚ) :
    Except Err Balances :=
  match b accountId with
  | none => .error .notFound
  | some bal => .ok fun a => if a = accountId then some (bal + amount) else b a

/-- `updateAccountBalance` (transactions.service.ts:357-384): apply the
balance effect of a transaction.  A `TRANSFER` with a truthy destination
debits `|amount|` from the source and credits `|amount|` to the destination
(the two `updateBalance` calls of the `Promise.all` are modelled in their
serialization order source-then-destination; for distinct accounts every
interleaving yields this store); anything else adds the signed `amount` to
the single account.  Any failure is caught and rethrown as
`InternalServerErrorException`. -/
def updateAccountBalance (t : Tx) (b : Balances) : Except Err Balances :=
  (if t.type = transfer ∧ optTruthy t.destinationAccountId then do
      let b1 ← updateBalance b t.accountId (-|t.amount|)
      updateBalance b1 (t.destinationAccountId.getD 0) |t.amount|
    else updateBalance b t.accountId t.amount).mapError
    fun _ => .internalError

/-- `reverseAccountBalance` (transactions.service.ts:392-417): undo the
balance effect of a transaction using its (snapshot) field values, with the
same transfer serialization and catch-and-rethrow as the apply direction. -/
def reverseAccountBalance (t : Tx) (b : Balances) : Except Err Balances :=
  (if t.type = transfer ∧ optTruthy t.destinationAccountId then do
      let b1 ← updateBalance b t.accountId |t.amount|
      updateBalance b1 (t.destinationAccountId.getD 0) (-|t.amount|)
    else updateBalance b t.accountId (-t.amount)).mapError
    fun _ => .internalError

/-- The set of existing accounts of the requesting user;
`AccountsService.findOne` succeeds exactly on these. -/
structure Env where
  accounts : ℕ → Bool

/-- `accountsService.findOne(id, userId)`: `NotFoundException` when absent. -/
def findOneAccount (env : Env) (id : ℕ) : Except Err Unit :=
  if env.accounts id then .ok () else .error .notFound

/-- `CreateTransactionDto`: `amount`, `type`, `accountId` required; the rest
optional (class-validator `@IsOptional`). -/
structure CreateDto where
  amount : ℚ
  type : TransactionType
  description : Option String
  date : Date
  isPaid : Option Bool
  accountId : ℕ
  destinationAccountId : Option ℕ
  categoryId : Option ℕ
deriving Repr

/-- `UpdateTransactionDto` (PartialType of the create DTO): every field
optional; an absent field is not assigned by `Object.assign`. -/
structure UpdateDto where
  amount : Option ℚ
  type : Option TransactionType
  description : Option String
  date : Option Date
  isPaid : Option Bool
  accountId : Option ℕ
  destinationAccountId : Option ℕ
  categoryId : Option ℕ
deriving Repr

/-- An update DTO with no field set. -/
def UpdateDto.empty : UpdateDto :=
  ⟨none, none, none, none, none, none, none, none⟩

/-- The validation prefix of `create` (transactions.service.ts:46-56):
source account lookup; for a TRANSFER with a truthy destination, destination
lookup and rejection of equal source and destination. -/
def createValidations (env : Env) (dto : CreateDto) : Except Err Unit := do
  _ ← findOneAccount env dto.accountId
  if dto.type = transfer ∧ optTruthy dto.destinationAccountId then
    _ ← findOneAccount env (dto.destinationAccountId.getD 0)
    if dto.accountId = dto.destinationAccountId.getD 0 then
      throw .badRequest

/-- The transaction row `create` builds (transactions.service.ts:58-62):
EXPENSE amounts are forced to `-|amount|`, any other type stores the given
amount; `newId` is the id the repository assigns; `isPaid` defaults to the
entity column default `false` when the DTO omits it; an omitted description
leaves the nullable column `NULL`. -/
def builtTx (userId : ℕ) (dto : CreateDto) (newId : ℕ) : Tx :=
  { id := newId
    amount := if dto.type = expense then -|dto.amount| else dto.amount
    type := dto.type
    description := dto.description
    date := dto.date
    isPaid := dto.isPaid.getD false
    accountId := dto.accountId
    destinationAccountId := dto.destinationAccountId
    categoryId := dto.categoryId
    userId := userId }

/-- `create` (transactions.service.ts:39-72).  Returns the saved transaction
together with the balance step the call performs after persisting (the
`updateAccountBalance` call when the saved transaction `isPaid`, whose
failure propagates). -/
def create (env : Env) (userId : ℕ) (dto : CreateDto) (newId : ℕ) :
    Except Err (Tx × (Balances → Except Err Balances)) := do
  _ ← createValidations env dto
  let tx := builtTx userId dto newId
  return (tx, fun b => if tx.isPaid then updateAccountBalance tx b else .ok b)

/-- `updateTransactionDto.amount || transaction.amount`: JS `||` falls through
on the falsy values `undefined` and `0`. -/
def amountOr (dto : UpdateDto) (tx : Tx) : ℚ :=
  match dto.amount with
  | some a => if a = 0 then tx.amount else a
  | none => tx.amount

/-- The type-change re-signing block of `update`
(transactions.service.ts:200-213): when the DTO carries a type different from
the stored one, force the amount negative if the new type is EXPENSE, force it
positive if the old type was EXPENSE; otherwise leave the DTO untouched. -/
def resign (dto : UpdateDto) (tx : Tx) : UpdateDto :=
  if dto.type.isSome ∧ dto.type ≠ some tx.type then
    if dto.type = some expense then
      { dto with amount := some (-|amountOr dto tx|) }
    else if tx.type = expense then
      { dto with amount := some |amountOr dto tx| }
    else dto
  else dto

/-- `Object.assign(transaction, updateTransactionDto)`: overwrite exactly the
fields present on the DTO. -/
def assign (tx : Tx) (dto : UpdateDto) : Tx :=
  { tx with
    amount := dto.amount.getD tx.amount
    type := dto.type.getD tx.type
    description :=
      match dto.description with
      | some d => some d
      | none => tx.description
    date := dto.date.getD tx.date
    isPaid := dto.isPaid.getD tx.isPaid
    accountId := dto.accountId.getD tx.accountId
    destinationAccountId :=
      match dto.destinationAccountId with
      | some d => some d
      | none => tx.destinationAccountId
    categoryId :=
      match dto.categoryId with
      | some c => some c
      | none => tx.categoryId }

/-- The validation prefix of `update` (transactions.service.ts:169-198):
lookup of a newly-referenced account; for a stored TRANSFER whose request
carries a destination different from the stored one, destination lookup and
rejection when the request's own `accountId` equals the request's own
`destinationAccountId`. -/
def updateValidations (env : Env) (tx : Tx) (dto : UpdateDto) :
    Except Err Unit := do
  if optTruthy dto.accountId ∧ dto.accountId.getD 0 ≠ tx.accountId then
    _ ← findOneAccount env (dto.accountId.getD 0)
  if tx.type = transfer ∧ optTruthy dto.destinationAccountId ∧
      some (dto.destinationAccountId.getD 0) ≠ tx.destinationAccountId then
    _ ← findOneAccount env (dto.destinationAccountId.getD 0)
    if dto.accountId = dto.destinationAccountId then
      throw .badRequest

/-- `update` (transactions.service.ts:160-229) on an already-fetched
transaction `tx`.  Returns the updated transaction and the composite balance
step: reverse the pre-update snapshot when the old `isPaid` was true, then
(after persisting) apply the post-update state when the new `isPaid` is
true; either step's failure propagates. -/
def update (env : Env) (tx : Tx) (dto : UpdateDto) :
    Except Err (Tx × (Balances → Except Err Balances)) := do
  _ ← updateValidations env tx dto
  let dto' := resign dto tx
  let newTx := assign tx dto'
  return (newTx,
    fun b =>
      (if tx.isPaid then reverseAccountBalance tx b else .ok b).bind
        fun b1 => if newTx.isPaid then updateAccountBalance newTx b1 else .ok b1)

/-- `remove` (transactions.service.ts:238-246): reverse the balance effect
when the transaction was paid, then delete the row. -/
def remove (tx : Tx) (b : Balances) : Except Err Balances :=
  if tx.isPaid then reverseAccountBalance tx b else .ok b

end Ledger

/-! ## Text utilities shared by the analytics services -/

namespace Analytics

/-- Characters kept by `normalizeText`'s `replace(/[^\w\s]/g, '')`:
word characters (`[A-Za-z0-9_]`) and whitespace. -/
def keepChar (c : Char) : Bool :=
  c.isAlphanum || c = '_' || c.isWhitespace

/-- `toLowerCase()`, written as a character-list map (what `String.toLower`
does, stated structurally so it computes). -/
def strToLower (s : String) : String :=
  (s.toList.map Char.toLower).asString

/-- `trim()`: drop leading and trailing whitespace (structural form of
`String.trim` on the modeled character set). -/
def strTrim (s : String) : String :=
  (((s.toList.dropWhile Char.isWhitespace).reverse.dropWhile
      Char.isWhitespace).reverse).asString

/-- `normalizeText` (auto-categorization.service.ts:215-221): lowercase,
Unicode-decompose and strip combining marks, drop non-word/non-space
characters.  NFD decomposition followed by mark-stripping is the identity on
the ASCII fragment this model ranges over. -/
def normalizeText (s : String) : String :=
  ((strToLower s).toList.filter keepChar).asString

/-- `normalizeDescription` (anomaly-detection.service.ts:293-300): same as
`normalizeText` plus a final `trim()`. -/
def normalizeDescription (s : String) : String :=
  strTrim (normalizeText s)

/-- Whether `small` occurs contiguously at the head of `big`. -/
def matchesAt : List Char → List Char → Bool
  | _, [] => true
  | [], _ :: _ => false
  | a :: as, b :: bs => a = b && matchesAt as bs

/-- Whether `small` occurs contiguously anywhere in `big`. -/
def hasSegment : List Char → List Char → Bool
  | big, small =>
    if matchesAt big small then true
    else
      match big with
      | [] => false
      | _ :: t => hasSegment t small

/-- JS `a.includes(b)`: `b` is a substring of `a`. -/
def strIncludes (a b : String) : Bool :=
  hasSegment a.toList b.toList

/-- `areDescriptionsSimilar` (anomaly-detection.service.ts:305-308), the same
heuristic the categorizer's similar-transaction scan applies inline:
one string contains the other. -/
def areDescriptionsSimilar (desc1 desc2 : String) : Bool :=
  strIncludes desc1 desc2 || strIncludes desc2 desc1

/-! ## `AutoCategorizationService` -/

/-- A category suggestion `{categoryId, confidence}`.  `categoryId` is
nullable because the similar-transaction path forwards the matched
transaction's possibly-null `categoryId` unchecked. -/
structure Suggestion where
  categoryId : Option ℕ
  confidence : ℚ
deriving DecidableEq, Repr

/-- The categorizer's collaborators and process state, fixed for one
`suggestCategory` call:
* `isModelTrained` — the service flag set after a successful train;
* `classifications` — `classifier.getClassifications` on a feature string;
  the natural.js Bayes classifier returns `(label, value)` pairs sorted by
  descending `value`, with labels the decimal category ids (parsed to `ℕ`);
* `recent` — `transactionsService.findRecent(userId, 100)`: the user's most
  recent transactions, most recent first, at most 100;
* `catsFor` — `categoriesService.findAll(userId, type)` for the polarity
  type derived from the amount (EXPENSE for negative, INCOME otherwise),
  name-ascending as the provider orders it;
* `keywordMap` — the keyword→category map state, looked up by lowercased
  category name. -/
structure ACEnv where
  isModelTrained : Bool
  classifications : String → List (ℕ × ℚ)
  recent : List Tx
  catsFor : Bool → List Category
  keywordMap : List (String × List String)

/-- `getAmountRange` (auto-categorization.service.ts:123-129). -/
def getAmountRange (amount : ℚ) : String :=
  if amount < 50 then "valor_muito_baixo"
  else if amount < 100 then "valor_baixo"
  else if amount < 500 then "valor_medio"
  else if amount < 1000 then "valor_alto"
  else "valor_muito_alto"

/-- Split a character list on spaces. -/
def splitOnSpace : List Char → List Char → List (List Char)
  | [], acc => [acc.reverse]
  | c :: rest, acc =>
    if c = ' ' then acc.reverse :: splitOnSpace rest []
    else splitOnSpace rest (c :: acc)

/-- The word tokenizer applied to an already-normalized string (only word
characters and spaces remain): split on whitespace, dropping empty tokens. -/
def tokenize (s : String) : List String :=
  ((splitOnSpace s.toList []).map List.asString).filter (· ≠ "")

/-- `extractFeatures` (auto-categorization.service.ts:105-118): normalized
word tokens plus a polarity token and a magnitude-bucket token, joined by
spaces. -/
def extractFeatures (description : String) (amount : ℚ) : String :=
  String.intercalate " "
    (tokenize (normalizeText description) ++
      [if amount < 0 then "despesa" else "receita", getAmountRange |amount|])

/-- `fallbackCategorization` (auto-categorization.service.ts:196-210): first
category of the amount's polarity with confidence 0.3, else `null`.
The `Bool` argument is `amount < 0`. -/
def fallbackCategorization (env : ACEnv) (isExpense : Bool) : Option Suggestion :=
  match env.catsFor isExpense with
  | [] => none
  | c :: _ => some ⟨some c.id, 3/10⟩

/-- The similarity test of `findSimilarTransaction`: the recent transaction's
normalized (non-null) description contains, or is contained in, the (already
normalized) query description. -/
def similarPred (description : String) (d : String) : Bool :=
  strIncludes (normalizeText d) description ||
    strIncludes description (normalizeText d)

/-- `findSimilarTransaction` (auto-categorization.service.ts:226-249): scan
the recent transactions in order and return the first one similar to the
(already normalized) query description.  Each iteration first computes
`normalizeText(transaction.description)`, which throws a `TypeError` on a
row whose nullable description is `NULL` — the scan fails there (`.error`)
before any later row is inspected. -/
def findSimilarTransaction (description : String) :
    List Tx → Except Unit (Option Tx)
  | [] => .ok none
  | t :: rest =>
    match t.description with
    | none => .error ()
    | some d =>
      if similarPred description d then .ok (some t)
      else findSimilarTransaction description rest

/-- `matchCategoryByKeywords` (auto-categorization.service.ts:254-282): first
polarity-matching category whose keyword list (if any) has a keyword occurring
in the normalized description; confidence 0.7. -/
def matchCategoryByKeywords (env : ACEnv) (description : String)
    (isExpense : Bool) : Option Suggestion :=
  (env.catsFor isExpense).findSome? fun category =>
    match env.keywordMap.lookup (strToLower category.name) with
    | some kws =>
        if kws.any (fun kw => strIncludes description kw) then
          some ⟨some category.id, 7/10⟩
        else none
    | none => none

/-- The ML branch of `suggestCategory` (auto-categorization.service.ts:147-159):
when the model is trained and the top classification has value above 0.3,
return it. -/
def mlStep (env : ACEnv) (description : String) (amount : ℚ) : Option Suggestion :=
  if env.isModelTrained then
    match env.classifications (extractFeatures description amount) with
    | [] => none
    | c :: _ => if 3/10 < c.2 then some ⟨some c.1, c.2⟩ else none
  else none

/-- `suggestCategory` (auto-categorization.service.ts:135-191): blank
descriptions go straight to the type-only fallback; otherwise ML, then
similar-transaction (confidence 0.85), then keyword map (0.7), then the
type-only fallback (0.3 or `null`).  The whole chain after the blank check
runs in a `try`; a throw — the similar-transaction scan hitting a
`NULL`-description row — is caught and answered with the type-only fallback,
skipping the keyword step. -/
def suggestCategory (env : ACEnv) (description : String) (amount : ℚ) :
    Option Suggestion :=
  if description = "" ∨ strTrim description = "" then
    fallbackCategorization env (amount < 0)
  else
    match mlStep env description amount with
    | some r => some r
    | none =>
      match findSimilarTransaction (normalizeText description) env.recent with
      | .error _ => fallbackCategorization env (amount < 0)
      | .ok (some t) => some ⟨t.categoryId, 17/20⟩
      | .ok none =>
        match matchCategoryByKeywords env (normalizeText description) (amount < 0) with
        | some r => some r
        | none => fallbackCategorization env (amount < 0)

/-! ## `SpendingPredictionService` -/

/-- A month, as `(year, 1-based month)` — the `"YYYY-MM"` key the code
builds from `getFullYear()` and `getMonth() + 1`. -/
def YearMonth := ℤ × ℕ
deriving DecidableEq, Repr

/-- Numeric key ordering months exactly as `localeCompare` orders the
zero-padded `"YYYY-MM"` strings (for A.D. four-digit years). -/
def ymKey (p : YearMonth) : ℤ :=
  p.1 * 12 + p.2

/-- The `"YYYY-MM"` month of a date. -/
def monthOfDate (d : Date) : YearMonth :=
  (d.year, d.month0 + 1)

/-- `MonthlyAggregate {month, amount}`. -/
structure MonthlyAggregate where
  month : YearMonth
  amount : ℚ
deriving DecidableEq, Repr

/-- Add an amount into the month map (a JS object with `"YYYY-MM"` keys:
string keys enumerate in insertion order). -/
def addMonthAmount (acc : List (YearMonth × ℚ)) (k : YearMonth) (a : ℚ) :
    List (YearMonth × ℚ) :=
  if (acc.lookup k).isSome then
    acc.map fun p => if p.1 = k then (p.1, p.2 + a) else p
  else acc ++ [(k, a)]

/-- `aggregateByMonth` (spending-prediction.service.ts:130-150): sum amounts
per calendar month, then take absolute values. -/
def aggregateByMonth (transactions : List Tx) : List MonthlyAggregate :=
  (transactions.foldl
      (fun acc t => addMonthAmount acc (monthOfDate t.date) t.amount) []
    ).map fun p => ⟨p.1, |p.2|⟩

/-- Comparator of the code's `sort((a, b) => a.month.localeCompare(b.month))`;
JS sort is stable, as is `List.insertionSort`. -/
def aggLe (a b : MonthlyAggregate) : Prop :=
  ymKey a.month ≤ ymKey b.month

instance : DecidableRel aggLe := by
  unfold aggLe; infer_instance

instance : IsTotal MonthlyAggregate aggLe :=
  ⟨fun a b => le_total (ymKey a.month) (ymKey b.month)⟩

instance : IsTrans MonthlyAggregate aggLe :=
  ⟨fun _ _ _ hab hbc => le_trans hab hbc⟩

/-- Result of the weighted-moving-average computation. -/
structure WmaResult where
  amount : ℚ
  confidence : ℝ

/-- `calculateWeightedMovingAverage`
(spending-prediction.service.ts:155-207).  Fewer than 3 months: simple
average (0 when empty) with confidence 0.3.  Otherwise, over the data sorted
ascending by month with linear weights `1..n`: the weighted average, and
`(1 - min(stdDev/weightedAverage, 1)) * min(n/12, 1)` where `stdDev` is the
square root of the population variance around the weighted average.
(When every amount is 0 the code's `stdDev/weightedAverage` is `0/0 = NaN`
in JS and the confidence is `NaN`; the real-division model below returns a
number there, and the claim theorem excludes that degenerate corner.) -/
noncomputable def calculateWeightedMovingAverage
    (monthlyData : List MonthlyAggregate) : WmaResult :=
  if monthlyData.length < 3 then
    let sum : ℚ := monthlyData.foldl (fun total item => total + item.amount) 0
    ⟨if 0 < monthlyData.length then sum / monthlyData.length else 0, 3/10⟩
  else
    let sortedData := monthlyData.insertionSort aggLe
    let weightedSum : ℚ :=
      (sortedData.enum.foldl (fun s p => s + p.2.amount * (p.1 + 1)) 0)
    let weightSum : ℚ :=
      (sortedData.enum.foldl (fun s p => s + ((p.1 : ℚ) + 1)) 0)
    let weightedAverage : ℚ := weightedSum / weightSum
    let variance : ℚ :=
      (sortedData.foldl (fun total item =>
        total + (item.amount - weightedAverage) ^ 2) 0) / sortedData.length
    let stdDev : ℝ := Real.sqrt variance
    let coefficientOfVariation : ℝ := stdDev / (weightedAverage : ℝ)
    ⟨weightedAverage,
      (1 - min coefficientOfVariation 1) *
        min ((sortedData.length : ℝ) / 12) 1⟩

/-- Spec-side (refinement) formula for the weighted moving average, from the
claim's words: with the data sorted ascending by month and linear weights
`1..n`, `Σ(amount_i · weight_i) / Σ(weight_i)`. -/
def wmaAmountSpec (sorted : List MonthlyAggregate) : ℚ :=
  ((sorted.enum.map fun p => p.2.amount * ((p.1 : ℚ) + 1)).sum) /
    (((List.range sorted.length).map fun i : ℕ => ((i : ℚ) + 1)).sum)

/-- Spec-side (refinement) formula for the confidence, from the claim's
words: `(1 − min(stdDev/weightedAverage, 1)) · min(n/12, 1)` with `stdDev`
the square root of the population variance of the amounts around the
weighted average. -/
noncomputable def wmaConfidenceSpec (sorted : List MonthlyAggregate) : ℝ :=
  let variance : ℚ :=
    ((sorted.map fun it => (it.amount - wmaAmountSpec sorted) ^ 2).sum) /
      (sorted.length : ℚ)
  (1 - min (Real.sqrt (variance : ℚ) / ((wmaAmountSpec sorted : ℚ) : ℝ)) 1) *
    min ((sorted.length : ℝ) / 12) 1

/-- Linear month index used to bound the `fillMissingMonths` loop. -/
def monthIdx (d : Date) : ℤ :=
  d.year * 12 + d.month0

/-- The `"YYYY-MM"` month with linear month index `i`. -/
def ymOfIdx (i : ℤ) : YearMonth :=
  (i.ediv 12, (i.emod 12).toNat + 1)

/-- The ascending list of calendar months from `s`'s month to `e`'s month
(the canonical complete contiguous window used to state C7). -/
def monthRange (s e : Date) : List YearMonth :=
  (List.range ((monthIdx e + 1 - monthIdx s).toNat)).map
    (fun k : ℕ => ymOfIdx (monthIdx s + k))

/-- The months visited by the `while (current <= endDate)` loop of
`fillMissingMonths`, stepping with `setMonth(getMonth() + 1)`.  Fuel-indexed
for structural recursion; `monthWalk` supplies provably sufficient fuel
(every step advances the month index by at least one). -/
def monthWalkAux : ℕ → Date → Date → List YearMonth
  | 0, _, _ => []
  | fuel + 1, current, endDate =>
    if dateLe current endDate then
      monthOfDate current :: monthWalkAux fuel (addMonths current 1) endDate
    else []

/-- All months generated by the zero-fill loop from `startDate` while
`current <= endDate`. -/
def monthWalk (startDate endDate : Date) : List YearMonth :=
  monthWalkAux ((monthIdx endDate + 2 - monthIdx startDate).toNat) startDate endDate

/-- `fillMissingMonths` (spending-prediction.service.ts:286-310): append a
zero aggregate for every loop month not already present in the data. -/
def fillMissingMonths (data : List MonthlyAggregate) (startDate endDate : Date) :
    List MonthlyAggregate :=
  data ++
    ((monthWalk startDate endDate).filter
        (fun ym => ¬ (data.map (·.month)).contains ym)
      ).map fun ym => ⟨ym, 0⟩

/-- `getCategoryTrend` (spending-prediction.service.ts:246-281) for one user:
`txs` is the transaction store; `findByPeriod` contributes the
`isPaid ∧ startDate ≤ date ≤ endDate` filter, with
`startDate = now.setMonth(now.getMonth() - months)` and `endDate = now`.
Aggregate the category's transactions by month, zero-fill the window's
months, and sort ascending by month key. -/
def getCategoryTrend (now : Date) (categoryId : ℕ) (months : ℕ)
    (txs : List Tx) : List MonthlyAggregate :=
  let endDate := now
  let startDate := addMonths now (-(months : ℤ))
  let transactions := txs.filter fun t =>
    t.isPaid && dateLe startDate t.date && dateLe t.date endDate
  let categoryTransactions := transactions.filter fun t =>
    t.categoryId = some categoryId
  let monthlyData := aggregateByMonth categoryTransactions
  (fillMissingMonths monthlyData startDate endDate).insertionSort aggLe

/-! ## `AnomalyDetectionService` -/

/-- `CategoryStats {mean, median, stdDev, min, max}`; the variance is kept
rational, `stdDev = Real.sqrt variance` is derived where used. -/
structure CategoryStats where
  mean : ℚ
  median : ℚ
  variance : ℚ
  minVal : ℚ
  maxVal : ℚ
deriving DecidableEq, Repr

/-- `calculateCategoryStats` (anomaly-detection.service.ts:158-191) over the
group's signed amounts: mean, population variance, median (of the ascending
sort), minimum and maximum.  Only invoked on groups of length ≥ 3. -/
def calculateCategoryStats (transactions : List Tx) : CategoryStats :=
  let values := transactions.map (·.amount)
  let sum := values.foldl (fun total val => total + val) (0 : ℚ)
  let mean := sum / values.length
  let squaredDiffs := values.map fun val => (val - mean) ^ 2
  let variance :=
    (squaredDiffs.foldl (fun total val => total + val) (0 : ℚ)) / values.length
  let sortedValues := values.insertionSort (· ≤ ·)
  let middle := values.length / 2
  let median :=
    if values.length % 2 = 0 then
      (sortedValues.getD (middle - 1) 0 + sortedValues.getD middle 0) / 2
    else sortedValues.getD middle 0
  let minVal := match values with | [] => 0 | v :: vs => vs.foldl min v
  let maxVal := match values with | [] => 0 | v :: vs => vs.foldl max v
  ⟨mean, median, variance, minVal, maxVal⟩

/-- The z-score `Math.abs((amount - mean) / stdDev)` of one amount against a
group's statistics. -/
noncomputable def zScoreR (mean variance amount : ℚ) : ℝ :=
  |((amount - mean : ℚ) : ℝ)| / Real.sqrt (variance : ℚ)

/-- The emission test `zScore > 2`.  On every reachable input (a group
member's amount) `variance = 0` forces `amount = mean`, where both the JS
float evaluation (`NaN > 2 = false`) and this real-valued model (`0 / 0 = 0`)
refuse to flag. -/
def zFlag (mean variance amount : ℚ) : Prop :=
  2 < zScoreR mean variance amount

instance zFlagDecidable (mean variance amount : ℚ) :
    Decidable (zFlag mean variance amount) :=
  decidable_of_iff (0 < variance ∧ 4 * variance < (amount - mean) ^ 2) (by
    unfold zFlag zScoreR
    set d : ℝ := ((amount - mean : ℚ) : ℝ) with hd
    constructor
    · rintro ⟨hv, hlt⟩
      have hv' : (0 : ℝ) < (variance : ℚ) := by exact_mod_cast hv
      have hs : 0 < Real.sqrt (variance : ℚ) := Real.sqrt_pos.mpr hv'
      have hsq : Real.sqrt (variance : ℚ) ^ 2 = (variance : ℚ) :=
        Real.sq_sqrt hv'.le
      have hlt' : (4 : ℝ) * (variance : ℚ) < d ^ 2 := by
        rw [hd]; exact_mod_cast hlt
      rw [lt_div_iff₀ hs]
      nlinarith [abs_nonneg d, sq_abs d, hs.le]
    · intro h
      have hv : (0 : ℝ) < (variance : ℚ) := by
        by_contra hv
        push_neg at hv
        rw [Real.sqrt_eq_zero_of_nonpos hv, div_zero] at h
        norm_num at h
      have hs : 0 < Real.sqrt (variance : ℚ) := Real.sqrt_pos.mpr hv
      have hsq : Real.sqrt (variance : ℚ) ^ 2 = (variance : ℚ) :=
        Real.sq_sqrt hv.le
      rw [lt_div_iff₀ hs] at h
      refine ⟨by exact_mod_cast hv, ?_⟩
      have : (4 : ℝ) * (variance : ℚ) < d ^ 2 := by
        nlinarith [abs_nonneg d, sq_abs d, hs.le]
      rw [hd] at this; exact_mod_cast this)

/-- An emitted anomaly, restricted to the fields the claims constrain (the
human-readable `reason` string is not modelled). -/
structure Anomaly where
  transactionId : ℕ
  amount : ℚ
  date : Date
  categoryId : Option ℕ
  anomalyScore : ℝ

/-- The anomaly record built for a z-flagged group member, with
`anomalyScore = Math.min(zScore / 4, 1)`. -/
noncomputable def mkZAnomaly (mean variance : ℚ) (t : Tx) : Anomaly :=
  ⟨t.id, t.amount, t.date, t.categoryId,
    min (zScoreR mean variance t.amount / 4) 1⟩

/-- The per-category analysis loop body (anomaly-detection.service.ts:91-123):
groups with fewer than 3 transactions are skipped; otherwise every member
whose z-score against the group statistics exceeds 2 is emitted. -/
noncomputable def groupAnomalies (g : List Tx) : List Anomaly :=
  if g.length < 3 then []
  else
    let stats := calculateCategoryStats g
    (g.filter fun t => decide (zFlag stats.mean stats.variance t.amount)).map
      (mkZAnomaly stats.mean stats.variance)

/-- Insert a transaction into its category's group (insertion-ordered). -/
def upsertGroup (acc : List (ℕ × List Tx)) (k : ℕ) (t : Tx) :
    List (ℕ × List Tx) :=
  if (acc.lookup k).isSome then
    acc.map fun p => if p.1 = k then (p.1, p.2 ++ [t]) else p
  else acc ++ [(k, [t])]

/-- Grouping by truthy `categoryId` (anomaly-detection.service.ts:75-85).
`Object.entries` enumerates integer-like keys in ascending numeric order,
hence the final sort (no analysed claim depends on group enumeration
order). -/
def groupByCategory (txs : List Tx) : List (ℕ × List Tx) :=
  (txs.foldl
      (fun acc t =>
        if optTruthy t.categoryId then upsertGroup acc (t.categoryId.getD 0) t
        else acc)
      []).insertionSort fun a b => a.1 ≤ b.1

/-- `detectAnomalies` (anomaly-detection.service.ts:53-153) for one user:
`txs` is `findByPeriod`'s output for the trailing 90 days (paid transactions
only, per the provider contract).  Fewer than 5 transactions: empty.
Otherwise z-score anomalies per category group, plus every uncategorized
transaction with fixed score 0.7, sorted descending by score and truncated
to `maxResults`. -/
noncomputable def detectAnomalies (txs : List Tx) (maxResults : ℕ) :
    List Anomaly :=
  if txs.length < 5 then []
  else
    let zAnomalies :=
      (groupByCategory txs).foldl (fun acc p => acc ++ groupAnomalies p.2) []
    let uncategorized :=
      (txs.filter fun t => !optTruthy t.categoryId).map fun t =>
        Anomaly.mk t.id t.amount t.date none (7 / 10 : ℝ)
    (@List.insertionSort Anomaly (fun a b => b.anomalyScore ≤ a.anomalyScore)
        (fun _ _ => Classical.dec _) (zAnomalies ++ uncategorized)).take maxResults

/-- A recurring group identified by `identifyRecurringGroups`. -/
structure RecGroup where
  description : String
  transactions : List Tx
  avgInterval : ℚ
  intervalVariance : ℚ

/-- Assign a transaction with normalized description `nd` to the first
existing description group whose key is similar to `nd`, else open a new
group under the key `nd` (anomaly-detection.service.ts:262-288). -/
def assignToGroup (groups : List (String × List Tx)) (t : Tx) (nd : String) :
    List (String × List Tx) :=
  match groups.find? (fun p => areDescriptionsSimilar nd p.1) with
  | some p => groups.map fun q => if q.1 = p.1 then (q.1, q.2 ++ [t]) else q
  | none => groups ++ [(nd, [t])]

/-- The grouping loop of `groupSimilarTransactions` from a given group
accumulator: each iteration first computes
`normalizeDescription(transaction.description)`, which throws a `TypeError`
on a `NULL`-description row — the loop fails there. -/
def groupSimilarTransactionsAux (groups : List (String × List Tx)) :
    List Tx → Except Unit (List (String × List Tx))
  | [] => .ok groups
  | t :: rest =>
    match t.description with
    | none => .error ()
    | some d =>
      groupSimilarTransactionsAux
        (assignToGroup groups t (normalizeDescription d)) rest

/-- `groupSimilarTransactions` (anomaly-detection.service.ts:262-288). -/
def groupSimilarTransactions (transactions : List Tx) :
    Except Unit (List (String × List Tx)) :=
  groupSimilarTransactionsAux [] transactions

/-- Inter-transaction intervals in days,
`Math.round((curr - prev) / 86400000)` over consecutive sorted dates
(exact whole days for midnight dates). -/
def dayIntervals (sorted : List Tx) : List ℤ :=
  (sorted.zip sorted.tail).map fun p =>
    round ((dateMs p.2.date - dateMs p.1.date) / 86400000)

/-- The regularity test `stdDev / avgInterval < 0.3`.  The `0 < avg` conjunct
encodes the JS float semantics of the only degenerate case: all intervals
zero gives `0 / 0 = NaN`, and `NaN < 0.3` is false (ascending dates make a
negative average impossible). -/
def recurringCond (avg variance : ℚ) : Prop :=
  0 < avg ∧ Real.sqrt (variance : ℚ) / (avg : ℝ) < 3 / 10

instance recurringCondDecidable (avg variance : ℚ) :
    Decidable (recurringCond avg variance) :=
  decidable_of_iff (0 < avg ∧ 100 * variance < 9 * avg ^ 2) (by
    unfold recurringCond
    refine and_congr_right fun havg => ?_
    have havg' : (0 : ℝ) < (avg : ℚ) := by exact_mod_cast havg
    rw [div_lt_iff₀ havg']
    rw [show (3 : ℝ) / 10 * ((avg : ℚ) : ℝ) = ((3 * avg / 10 : ℚ) : ℝ) by
      push_cast; ring]
    rw [Real.sqrt_lt' (by positivity)]
    rw [show (((3 * avg / 10 : ℚ) : ℝ)) ^ 2 = ((9 * avg ^ 2 / 100 : ℚ) : ℝ) by
      push_cast; ring]
    rw [Rat.cast_lt]
    constructor <;> intro h <;> linarith)

/-- The recurring groups one description group contributes
(the body of the `identifyRecurringGroups` loop): skip groups of fewer than
3 transactions; sort by date ascending; take the day-intervals' mean and
population variance; keep the group when the coefficient of variation is
below 0.3. -/
def recGroupOf (p : String × List Tx) : List RecGroup :=
  if p.2.length < 3 then []
  else
    let sortedTransactions :=
      p.2.insertionSort fun a b => dateMs a.date ≤ dateMs b.date
    let intervals := dayIntervals sortedTransactions
    let avgInterval : ℚ :=
      (intervals.foldl (fun sum val => sum + (val : ℚ)) 0) / intervals.length
    let variance : ℚ :=
      ((intervals.map fun val => ((val : ℚ) - avgInterval) ^ 2).foldl
        (fun sum val => sum + val) 0) / intervals.length
    if recurringCond avgInterval variance then
      [⟨p.1, sortedTransactions, avgInterval, variance⟩]
    else []

/-- `identifyRecurringGroups` (anomaly-detection.service.ts:313-364). -/
def identifyRecurringGroups (groups : List (String × List Tx)) :
    List RecGroup :=
  groups.foldl (fun acc p => acc ++ recGroupOf p) []

/-- An emitted missing-recurrence record; `expectedDateMs` is the
millisecond value `lastDate.getTime() + avgInterval * 86400000` the code
wraps in `new Date(...)` (the category display name is not modelled).
`description` copies `lastTransaction.description`, a nullable column. -/
structure MissingRecurrence where
  description : Option String
  lastDate : Date
  expectedDateMs : ℚ
  daysPastDue : ℚ
  averageAmount : ℚ
deriving DecidableEq, Repr

/-- The records one recurring group contributes to
`detectInterruptedPatterns` (anomaly-detection.service.ts:369-402): when the
group's last transaction is more than `avgInterval * 1.5` days old, emit a
missing-recurrence record.  `now` carries the calendar day of `new Date()`
(its time-of-day only perturbs `daysSinceLastTx` by less than a day and no
claim constrains that value's relation to the clock). -/
def missingOf (now : Date) (group : RecGroup) : List MissingRecurrence :=
  match group.transactions.getLast? with
  | none => []
  | some lastTransaction =>
    let daysSinceLastTx : ℤ :=
      round ((dateMs now - dateMs lastTransaction.date) / 86400000)
    if group.avgInterval * (3 / 2) < (daysSinceLastTx : ℚ) then
      [⟨lastTransaction.description, lastTransaction.date,
        dateMs lastTransaction.date + group.avgInterval * 86400000,
        (daysSinceLastTx : ℚ) - group.avgInterval,
        |(group.transactions.foldl (fun sum tx => sum + tx.amount) 0) /
          group.transactions.length|⟩]
    else []

/-- `detectInterruptedPatterns` body as a loop over `missingOf`. -/
def detectInterruptedPatterns (now : Date) (recurringGroups : List RecGroup) :
    List MissingRecurrence :=
  recurringGroups.foldl (fun acc group => acc ++ missingOf now group) []

/-- `detectUnusualFrequency` (anomaly-detection.service.ts:229-257): `txs` is
`findByPeriod`'s output for the trailing 180 days.  The whole pipeline runs
in a `try` whose catch returns `[]` — reached exactly when the grouping
stage throws on a `NULL`-description row. -/
def detectUnusualFrequency (now : Date) (txs : List Tx) :
    List MissingRecurrence :=
  match groupSimilarTransactions txs with
  | .error _ => []
  | .ok groups => detectInterruptedPatterns now (identifyRecurringGroups groups)

end Analytics

/-! ## Concrete instances used to evaluate the definitions -/

namespace Examples

open Ledger Analytics TransactionType

/-- An account environment in which every account id exists. -/
def envAll : Env := ⟨fun _ => true⟩

/-- Starting balances: every account exists and holds 1000. -/
def bal1000 : Balances := fun _ => some 1000

/-- A paid EXPENSE of amount 50 on account 1 (spec §8, scenario 1). -/
def dtoExpense50 : CreateDto :=
  ⟨50, expense, some "mercado", ⟨2025, 5, 10⟩, some true, 1, none, none⟩

/-- The scenario-1 update request carrying `amount: 80`. -/
def updAmount80 : UpdateDto := { UpdateDto.empty with amount := some 80 }

/-- The update request carrying the already-signed amount `-80`. -/
def updAmountNeg80 : UpdateDto := { UpdateDto.empty with amount := some (-80) }

/-- A create request of type INCOME with a negative amount. -/
def dtoIncomeNeg100 : CreateDto :=
  ⟨-100, income, some "estorno", ⟨2025, 5, 10⟩, some true, 1, none, none⟩

/-- A stored paid TRANSFER of 200 from account 1 to account 2. -/
def txTransfer12 : Tx :=
  ⟨9, 200, transfer, some "mover", ⟨2025, 5, 10⟩, true, 1, some 2, none, 1⟩

/-- An update request supplying only `accountId: 2`. -/
def updAccount2 : UpdateDto := { UpdateDto.empty with accountId := some 2 }

/-- A recent transaction of the categorizer's user, categorized as 9. -/
def simTx : Tx :=
  ⟨42, -30, expense, some "netflix", ⟨2025, 4, 5⟩, true, 1, none, some 9, 1⟩

/-- A recent transaction whose nullable description is SQL-`NULL`. -/
def nullDescTx : Tx :=
  ⟨43, -20, expense, none, ⟨2025, 4, 6⟩, true, 1, none, some 4, 1⟩

/-- A categorizer environment: untrained model, one recent transaction, one
expense category with keyword list, no income categories. -/
def acEnvEx : ACEnv :=
  { isModelTrained := false
    classifications := fun _ => []
    recent := [simTx]
    catsFor := fun isExpense => if isExpense then [⟨5, "moradia"⟩] else []
    keywordMap := [("moradia", ["aluguel", "luz"])] }

/-- The categorizer environment with a trained model whose classifier always
answers label 7 with posterior 1/2. -/
def acEnvML : ACEnv :=
  { acEnvEx with
    isModelTrained := true
    classifications := fun _ => [(7, 1/2)] }

/-- The categorizer environment whose single recent transaction has a
`NULL` description. -/
def acEnvNull : ACEnv := { acEnvEx with recent := [nullDescTx] }

/-- Monthly totals 100, 120, 110, 130 for Jan–Apr 2025 (spec §8,
scenario 3). -/
def wmaExample : List MonthlyAggregate :=
  [⟨(2025, 1), 100⟩, ⟨(2025, 2), 120⟩, ⟨(2025, 3), 110⟩, ⟨(2025, 4), 130⟩]

/-- 2025-12-31, a month-end clock date. -/
def decEnd2025 : Date := ⟨2025, 11, 31⟩

/-- A paid transaction in category 3 with a given id and amount. -/
def catTx (i : ℕ) (a : ℚ) : Tx :=
  ⟨i, a, expense, some "compra", ⟨2025, 0, 1⟩, true, 1, none, some 3, 1⟩

/-- A category group of five equal amounts and one outlier
(z-score √5 > 2 for the outlier). -/
def outlierGroup : List Tx :=
  [catTx 1 100, catTx 2 100, catTx 3 100, catTx 4 100, catTx 5 100, catTx 6 700]

/-- A category group whose amounts are all equal. -/
def constGroup : List Tx := [catTx 1 5, catTx 2 5, catTx 3 5]

/-- Three similarly-described paid transactions 30 days apart with
mixed-sign amounts. -/
def recTx (i : ℕ) (a : ℚ) (d : Date) : Tx :=
  ⟨i, a, expense, some "assinatura", d, true, 1, none, some 3, 1⟩

/-- First element of the mixed-sign recurring series (Jan 1 2025). -/
def rT1 : Tx := recTx 1 (-100) ⟨2025, 0, 1⟩

/-- Second element (Jan 31 2025, 30 days later). -/
def rT2 : Tx := recTx 2 100 ⟨2025, 0, 31⟩

/-- Third element (Mar 2 2025, 30 days later again). -/
def rT3 : Tx := recTx 3 (-100) ⟨2025, 2, 2⟩

/-- The mixed-sign recurring series: Jan 1, Jan 31, Mar 2 of 2025. -/
def recSeries : List Tx := [rT1, rT2, rT3]

/-- The recurring group the series forms: 30-day cadence, zero interval
variance. -/
def recGroupEx : RecGroup := ⟨"assinatura", [rT1, rT2, rT3], 30, 0⟩

/-- May 1 2025: 60 days after the last transaction of `recSeries`. -/
def may2025 : Date := ⟨2025, 4, 1⟩

end Examples

/-! ## Theorems -/

open Ledger Analytics Examples TransactionType

/-- Rational characterization of the z-score test: `|amount − mean| / √variance`
exceeds 2 exactly when the variance is positive and `4·variance < (amount − mean)²`. -/
theorem zFlag_iff (mean variance amount : ℚ) :
    zFlag mean variance amount ↔
      0 < variance ∧ 4 * variance < (amount - mean) ^ 2 := by
  unfold zFlag zScoreR
  set d : ℝ := ((amount - mean : ℚ) : ℝ) with hd
  constructor
  · intro h
    have hv : (0 : ℝ) < (variance : ℚ) := by
      by_contra hv
      push_neg at hv
      rw [Real.sqrt_eq_zero_of_nonpos hv, div_zero] at h
      norm_num at h
    have hs : 0 < Real.sqrt (variance : ℚ) := Real.sqrt_pos.mpr hv
    have hsq : Real.sqrt (variance : ℚ) ^ 2 = (variance : ℚ) :=
      Real.sq_sqrt hv.le
    rw [lt_div_iff₀ hs] at h
    refine ⟨by exact_mod_cast hv, ?_⟩
    have h4 : (4 : ℝ) * (variance : ℚ) < d ^ 2 := by
      nlinarith [abs_nonneg d, sq_abs d, hs.le]
    rw [hd] at h4; exact_mod_cast h4
  · rintro ⟨hv, hlt⟩
    have hv' : (0 : ℝ) < (variance : ℚ) := by exact_mod_cast hv
    have hs : 0 < Real.sqrt (variance : ℚ) := Real.sqrt_pos.mpr hv'
    have hsq : Real.sqrt (variance : ℚ) ^ 2 = (variance : ℚ) :=
      Real.sq_sqrt hv'.le
    have hlt' : (4 : ℝ) * (variance : ℚ) < d ^ 2 := by
      rw [hd]; exact_mod_cast hlt
    rw [lt_div_iff₀ hs]
    nlinarith [abs_nonneg d, sq_abs d, hs.le]

/-- Rational characterization of the recurrence regularity test. -/
theorem recurringCond_iff (avg variance : ℚ) :
    recurringCond avg variance ↔ 0 < avg ∧ 100 * variance < 9 * avg ^ 2 := by
  unfold recurringCond
  refine and_congr_right fun havg => ?_
  have havg' : (0 : ℝ) < (avg : ℚ) := by exact_mod_cast havg
  rw [div_lt_iff₀ havg']
  rw [show (3 : ℝ) / 10 * ((avg : ℚ) : ℝ) = ((3 * avg / 10 : ℚ) : ℝ) by
    push_cast; ring]
  rw [Real.sqrt_lt' (by positivity)]
  rw [show (((3 * avg / 10 : ℚ) : ℝ)) ^ 2 = ((9 * avg ^ 2 / 100 : ℚ) : ℝ) by
    push_cast; ring]
  rw [Rat.cast_lt]
  constructor <;> intro h <;> linarith

/-- `Except.mapError` preserves success exactly. -/
theorem except_mapError_ok {ε ε' α : Type} (f : ε → ε') (x : Except ε α)
    (a : α) : x.mapError f = .ok a ↔ x = .ok a := by
  cases x <;> simp [Except.mapError]

/-- Success of a bound `Except` computation splits into its two stages. -/
theorem except_bind_ok {ε α β : Type} (x : Except ε α) (f : α → Except ε β)
    (b : β) : (x >>= f) = .ok b ↔ ∃ a, x = .ok a ∧ f a = .ok b := by
  cases x <;> simp [Bind.bind, Except.bind]

/-- `updateBalance` on an existing account writes the adjusted balance. -/
theorem updateBalance_eq (b : Balances) (acc : ℕ) (amt bal : ℚ)
    (h : b acc = some bal) :
    updateBalance b acc amt =
      .ok fun a => if a = acc then some (bal + amt) else b a := by
  unfold updateBalance
  rw [h]

/-- `updateBalance` on a missing account raises `NotFoundException`. -/
theorem updateBalance_none (b : Balances) (acc : ℕ) (amt : ℚ)
    (h : b acc = none) : updateBalance b acc amt = .error .notFound := by
  unfold updateBalance
  rw [h]

/-- Inversion of a successful `updateBalance`. -/
theorem updateBalance_ok_inv (b : Balances) (acc : ℕ) (amt : ℚ)
    (b' : Balances) (h : updateBalance b acc amt = .ok b') :
    ∃ bal, b acc = some bal ∧
      b' = fun a => if a = acc then some (bal + amt) else b a := by
  unfold updateBalance at h
  cases hacc : b acc with
  | none => rw [hacc] at h; exact Except.noConfusion h
  | some bal =>
      rw [hacc] at h
      injection h with h2
      exact ⟨bal, rfl, h2.symm⟩

/-- Undoing one balance write restores the store. -/
theorem roundtrip_one (b b1 : Balances) (s : ℕ) (a1 : ℚ)
    (h : updateBalance b s a1 = .ok b1) :
    updateBalance b1 s (-a1) = .ok b := by
  obtain ⟨bal, hacc, rfl⟩ := updateBalance_ok_inv b s a1 b1 h
  rw [updateBalance_eq _ _ _ (bal + a1) (by simp)]
  congr 1
  funext a
  by_cases ha : a = s
  · subst ha
    rw [if_pos rfl, hacc]
    simp only [Option.some.injEq]
    ring
  · simp only [if_neg ha]

/-- Undoing two balance writes, replayed in the same order with negated
amounts, restores the store — also when the two accounts coincide. -/
theorem roundtrip_two (b b1 b2 : Balances) (s d : ℕ) (a1 a2 : ℚ)
    (h1 : updateBalance b s a1 = .ok b1)
    (h2 : updateBalance b1 d a2 = .ok b2) :
    ∃ c1, updateBalance b2 s (-a1) = .ok c1 ∧
      updateBalance c1 d (-a2) = .ok b := by
  obtain ⟨bs, hbs, rfl⟩ := updateBalance_ok_inv _ _ _ _ h1
  obtain ⟨x, hx, rfl⟩ := updateBalance_ok_inv _ _ _ _ h2
  by_cases hsd : s = d
  · subst hsd
    simp at hx
    refine ⟨_, updateBalance_eq _ _ _ (x + a2) (by simp), ?_⟩
    rw [updateBalance_eq _ _ _ (x + a2 + -a1) (by simp)]
    congr 1
    funext a
    by_cases ha : a = s
    · subst ha
      rw [if_pos rfl, hbs]
      simp only [Option.some.injEq]
      rw [← hx]
      ring
    · simp only [if_neg ha]
  · have hds : d ≠ s := fun hc => hsd hc.symm
    simp only [if_neg hds] at hx
    refine ⟨_, updateBalance_eq _ _ _ (bs + a1) (by simp [hsd]), ?_⟩
    rw [updateBalance_eq _ _ _ (x + a2) (by simp [hds])]
    congr 1
    funext a
    by_cases had : a = d
    · subst had
      rw [if_pos rfl, hx]
      simp only [Option.some.injEq]
      ring
    · by_cases has : a = s
      · subst has
        rw [if_neg had, if_pos rfl, hbs]
        simp only [Option.some.injEq]
        ring
      · simp only [if_neg had, if_neg has]

/-- `create` on passing validations: the saved row and its balance step. -/
theorem create_eq_of_validations (env : Env) (uid : ℕ) (dto : CreateDto) (nid : ℕ)
    (h : createValidations env dto = .ok ()) :
    create env uid dto nid = .ok (builtTx uid dto nid,
      fun b =>
        if (builtTx uid dto nid).isPaid then
          updateAccountBalance (builtTx uid dto nid) b
        else .ok b) := by
  unfold create
  rw [h]
  rfl

/-- `create` propagates a validation error. -/
theorem create_eq_error (env : Env) (uid : ℕ) (dto : CreateDto) (nid : ℕ)
    (e : Err) (h : createValidations env dto = .error e) :
    create env uid dto nid = .error e := by
  unfold create
  rw [h]
  rfl

/-- A successful `create` stores exactly the built row. -/
theorem create_ok_inv (env : Env) (uid : ℕ) (dto : CreateDto) (nid : ℕ)
    (p : Tx × (Balances → Except Err Balances))
    (h : create env uid dto nid = .ok p) :
    p.1 = builtTx uid dto nid := by
  cases hv : createValidations env dto with
  | error e =>
      rw [create_eq_error env uid dto nid e hv] at h
      exact Except.noConfusion h
  | ok u =>
      cases u
      rw [create_eq_of_validations env uid dto nid hv] at h
      cases h
      rfl

/-- `update` on passing validations: the assigned row and the composite
balance step. -/
theorem update_eq_of_validations (env : Env) (tx : Tx) (dto : UpdateDto)
    (h : updateValidations env tx dto = .ok ()) :
    update env tx dto = .ok (assign tx (resign dto tx),
      fun b =>
        (if tx.isPaid then reverseAccountBalance tx b else .ok b).bind
          fun b1 =>
            if (assign tx (resign dto tx)).isPaid then
              updateAccountBalance (assign tx (resign dto tx)) b1
            else .ok b1) := by
  unfold update
  rw [h]
  rfl

/-- `update` propagates a validation error. -/
theorem update_eq_error (env : Env) (tx : Tx) (dto : UpdateDto)
    (e : Err) (h : updateValidations env tx dto = .error e) :
    update env tx dto = .error e := by
  unfold update
  rw [h]
  rfl

/-- A successful `update` returns the assigned row and the
reverse-then-apply balance step. -/
theorem update_ok_inv (env : Env) (tx : Tx) (dto : UpdateDto)
    (p : Tx × (Balances → Except Err Balances))
    (h : update env tx dto = .ok p) :
    p.1 = assign tx (resign dto tx) ∧
    ∀ b, p.2 b =
      (if tx.isPaid then reverseAccountBalance tx b else .ok b).bind
        fun b1 =>
          if p.1.isPaid then updateAccountBalance p.1 b1 else .ok b1 := by
  cases hv : updateValidations env tx dto with
  | error e =>
      rw [update_eq_error env tx dto e hv] at h
      exact Except.noConfusion h
  | ok u =>
      cases u
      rw [update_eq_of_validations env tx dto hv] at h
      cases h
      exact ⟨rfl, fun b => rfl⟩

/-- C2: whenever applying a transaction's balance effect succeeds, reversing
it with the same snapshot returns the whole store — every account — to its
pre-apply state; on existing accounts a TRANSFER with a (truthy) destination
distinct from its source debits `|amount|` from the source and credits it to
the destination (the reverse doing the opposite), any other transaction
adjusts its single account by the signed amount (the reverse subtracting
it), and a missing account fails both directions with the rethrown
`InternalServerErrorException`. -/
theorem apply_reverse_roundtrip :
    (∀ (t : Tx) (b b' : Balances), updateAccountBalance t b = .ok b' →
      reverseAccountBalance t b' = .ok b) ∧
    (∀ (t : Tx) (b : Balances) (bs bd : ℚ), t.type = transfer →
      optTruthy t.destinationAccountId = true →
      t.accountId ≠ t.destinationAccountId.getD 0 →
      b t.accountId = some bs →
      b (t.destinationAccountId.getD 0) = some bd →
      (∃ b', updateAccountBalance t b = .ok b' ∧
        b' t.accountId = some (bs - |t.amount|) ∧
        b' (t.destinationAccountId.getD 0) = some (bd + |t.amount|)) ∧
      (∃ b2, reverseAccountBalance t b = .ok b2 ∧
        b2 t.accountId = some (bs + |t.amount|) ∧
        b2 (t.destinationAccountId.getD 0) = some (bd - |t.amount|))) ∧
    (∀ (t : Tx) (b : Balances) (bs : ℚ),
      ¬(t.type = transfer ∧ optTruthy t.destinationAccountId = true) →
      b t.accountId = some bs →
      (∃ b', updateAccountBalance t b = .ok b' ∧
        b' t.accountId = some (bs + t.amount)) ∧
      (∃ b2, reverseAccountBalance t b = .ok b2 ∧
        b2 t.accountId = some (bs - t.amount))) ∧
    (∀ (t : Tx) (b : Balances), b t.accountId = none →
      updateAccountBalance t b = .error .internalError ∧
      reverseAccountBalance t b = .error .internalError) := by
  refine ⟨?_, ?_, ?_, ?_⟩
  · intro t b b' h
    unfold updateAccountBalance at h
    rw [except_mapError_ok] at h
    unfold reverseAccountBalance
    rw [except_mapError_ok]
    by_cases hc : t.type = transfer ∧ optTruthy t.destinationAccountId = true
    · rw [if_pos hc] at h ⊢
      rw [except_bind_ok] at h
      obtain ⟨b1, hb1, hb2⟩ := h
      obtain ⟨c1, hc1, hc2⟩ := roundtrip_two b b1 b' t.accountId
        (t.destinationAccountId.getD 0) (-|t.amount|) |t.amount| hb1 hb2
      rw [except_bind_ok]
      rw [neg_neg] at hc1
      exact ⟨c1, hc1, hc2⟩
    · rw [if_neg hc] at h ⊢
      exact roundtrip_one b b' t.accountId t.amount h
  · intro t b bs bd ht hd hne hbs hbd
    have hc : t.type = transfer ∧ optTruthy t.destinationAccountId = true :=
      ⟨ht, hd⟩
    have hdds : (t.destinationAccountId.getD 0) ≠ t.accountId :=
      fun hc2 => hne hc2.symm
    constructor
    · have happly : updateAccountBalance t b = .ok fun a =>
          if a = t.destinationAccountId.getD 0 then some (bd + |t.amount|)
          else if a = t.accountId then some (bs + -|t.amount|) else b a := by
        unfold updateAccountBalance
        rw [except_mapError_ok, if_pos hc, except_bind_ok]
        refine ⟨_, updateBalance_eq b _ _ bs hbs, ?_⟩
        rw [updateBalance_eq _ _ _ bd (by simp only [if_neg hdds]; exact hbd)]
      refine ⟨_, happly, ?_, ?_⟩
      · simp [hne, sub_eq_add_neg]
      · simp
    · have hrev : reverseAccountBalance t b = .ok fun a =>
          if a = t.destinationAccountId.getD 0 then some (bd + -|t.amount|)
          else if a = t.accountId then some (bs + |t.amount|) else b a := by
        unfold reverseAccountBalance
        rw [except_mapError_ok, if_pos hc, except_bind_ok]
        refine ⟨_, updateBalance_eq b _ _ bs hbs, ?_⟩
        rw [updateBalance_eq _ _ _ bd (by simp only [if_neg hdds]; exact hbd)]
      refine ⟨_, hrev, ?_, ?_⟩
      · simp [hne]
      · simp [sub_eq_add_neg]
  · intro t b bs hn hbs
    constructor
    · have happly : updateAccountBalance t b =
          .ok fun a => if a = t.accountId then some (bs + t.amount) else b a := by
        unfold updateAccountBalance
        rw [except_mapError_ok, if_neg hn]
        exact updateBalance_eq b t.accountId t.amount bs hbs
      refine ⟨_, happly, ?_⟩
      simp
    · have hrev : reverseAccountBalance t b =
          .ok fun a => if a = t.accountId then some (bs + -t.amount) else b a := by
        unfold reverseAccountBalance
        rw [except_mapError_ok, if_neg hn]
        exact updateBalance_eq b t.accountId (-t.amount) bs hbs
      refine ⟨_, hrev, ?_⟩
      simp [sub_eq_add_neg]
  · intro t b hnone
    constructor
    · unfold updateAccountBalance
      by_cases hc : t.type = transfer ∧ optTruthy t.destinationAccountId = true
      · rw [if_pos hc, updateBalance_none b _ _ hnone]
        rfl
      · rw [if_neg hc, updateBalance_none b _ _ hnone]
        rfl
    · unfold reverseAccountBalance
      by_cases hc : t.type = transfer ∧ optTruthy t.destinationAccountId = true
      · rw [if_pos hc, updateBalance_none b _ _ hnone]
        rfl
      · rw [if_neg hc, updateBalance_none b _ _ hnone]
        rfl

/-- Witness for `apply_reverse_roundtrip`: the paid 200-transfer from account
1 to account 2 moves 1000/1000 to 800/1200 and reversing the result restores
the whole store. -/
theorem apply_reverse_roundtrip_witness :
    ∃ b', updateAccountBalance txTransfer12 bal1000 = .ok b' ∧
      b' 1 = some 800 ∧ b' 2 = some 1200 ∧
      reverseAccountBalance txTransfer12 b' = .ok bal1000 := by
  obtain ⟨b', happ, hs, hd⟩ :=
    (apply_reverse_roundtrip.2.1 txTransfer12 bal1000 1000 1000 rfl
      (by decide) (by decide) rfl rfl).1
  have hs' : b' 1 = some (1000 - |txTransfer12.amount|) := hs
  have hd' : b' 2 = some (1000 + |txTransfer12.amount|) := hd
  refine ⟨b', happ, ?_, ?_,
    apply_reverse_roundtrip.1 txTransfer12 bal1000 b' happ⟩
  · rw [hs']
    norm_num [txTransfer12]
  · rw [hd']
    norm_num [txTransfer12]

/-- C3 counterexample: `create` stores an INCOME transaction with the given
negative amount −100, violating the claimed invariant
`type = INCOME → amount ≥ 0`. -/
theorem sign_invariant_counterexample :
    ((create envAll 1 dtoIncomeNeg100 7).toOption.map fun p =>
      (p.1.type, p.1.amount)) = some (income, -100) ∧ ((-100 : ℚ) < 0) := by
  refine ⟨?_, by norm_num⟩
  rw [create_eq_of_validations envAll 1 dtoIncomeNeg100 7 rfl]
  rfl

/-- C3 amended: `create` forces EXPENSE amounts to `−|amount| ≤ 0` but stores
any other type's amount exactly as given (so INCOME satisfies `amount ≥ 0`
only when the request's amount does); `update` re-signs only when the request
changes the type to EXPENSE (forcing `≤ 0`) or away from EXPENSE (forcing
`≥ 0`) — a type-unchanged update stores the raw request amount. -/
theorem sign_convention_amended :
    (∀ env uid dto nid p, create env uid dto nid = .ok p →
      (p.1.type = expense → p.1.amount ≤ 0) ∧
      (p.1.type ≠ expense → p.1.amount = dto.amount)) ∧
    (∀ env tx dto p, update env tx dto = .ok p →
      (dto.type = some expense → tx.type ≠ expense → p.1.amount ≤ 0) ∧
      (dto.type.isSome → dto.type ≠ some tx.type → dto.type ≠ some expense →
        tx.type = expense → 0 ≤ p.1.amount) ∧
      (dto.type = none → p.1.amount = (dto.amount.getD tx.amount))) := by
  constructor
  · intro env uid dto nid p h
    have h1 := create_ok_inv env uid dto nid p h
    have htype : p.1.type = dto.type := by rw [h1]; rfl
    constructor
    · intro hexp
      rw [htype] at hexp
      rw [h1]
      show (if dto.type = expense then -|dto.amount| else dto.amount) ≤ 0
      rw [if_pos hexp]
      exact neg_nonpos.mpr (abs_nonneg dto.amount)
    · intro hne
      rw [htype] at hne
      rw [h1]
      show (if dto.type = expense then -|dto.amount| else dto.amount) = dto.amount
      rw [if_neg hne]
  · intro env tx dto p h
    have h1 := (update_ok_inv env tx dto p h).1
    refine ⟨?_, ?_, ?_⟩
    · intro hsome hne
      have hcond : dto.type.isSome ∧ dto.type ≠ some tx.type := by
        refine ⟨by rw [hsome]; rfl, ?_⟩
        rw [hsome]
        simpa using fun hc => hne hc.symm
      rw [h1]
      unfold resign
      rw [if_pos hcond, if_pos hsome]
      show (some (-|amountOr dto tx|)).getD tx.amount ≤ 0
      exact neg_nonpos.mpr (abs_nonneg _)
    · intro hsome hne hnexp hexp
      have hcond : dto.type.isSome ∧ dto.type ≠ some tx.type := ⟨hsome, hne⟩
      rw [h1]
      unfold resign
      rw [if_pos hcond, if_neg hnexp, if_pos hexp]
      show (0 : ℚ) ≤ (some |amountOr dto tx|).getD tx.amount
      exact abs_nonneg _
    · intro hnone
      have hcond : ¬(dto.type.isSome ∧ dto.type ≠ some tx.type) := by
        rw [hnone]; simp
      rw [h1]
      unfold resign
      rw [if_neg hcond]
      rfl

/-- Witness for `sign_convention_amended`: the paid EXPENSE-50 request stores
amount −50 ≤ 0, and the stored row has type EXPENSE. -/
theorem sign_convention_amended_witness :
    (builtTx 1 dtoExpense50 7).type = expense ∧
    (builtTx 1 dtoExpense50 7).amount ≤ 0 :=
  ⟨rfl,
    (sign_convention_amended.1 envAll 1 dtoExpense50 7 _
      (create_eq_of_validations envAll 1 dtoExpense50 7 rfl)).1 rfl⟩

/-- C4 counterexample: updating the stored TRANSFER (account 1 → 2) with a
request supplying only `accountId: 2` succeeds and persists a transfer whose
source equals its destination — no `BadRequest` is raised. -/
theorem transfer_same_account_counterexample :
    ((update envAll txTransfer12 updAccount2).toOption.map fun p =>
      (p.1.type, p.1.accountId, p.1.destinationAccountId)) =
      some (transfer, 2, some 2) := by
  rw [update_eq_of_validations envAll txTransfer12 updAccount2 rfl]
  rfl

/-- C4 amended: `create` always rejects a TRANSFER whose (truthy) destination
equals its source with `BadRequest`; `update` raises that rejection only when
the request itself supplies a destination different from the stored one and
the request's own `accountId` equals it — an update that makes the source
equal the stored destination is persisted without error (see the
counterexample). -/
theorem transfer_same_account_amended :
    (∀ env uid (dto : CreateDto) nid d, dto.type = transfer →
      dto.destinationAccountId = some d → d ≠ 0 → dto.accountId = d →
      env.accounts d = true →
      create env uid dto nid = .error .badRequest) ∧
    (∀ env (tx : Tx) (dto : UpdateDto) d, tx.type = transfer →
      dto.destinationAccountId = some d → d ≠ 0 →
      tx.destinationAccountId ≠ some d → dto.accountId = some d →
      env.accounts d = true →
      update env tx dto = .error .badRequest) := by
  constructor
  · intro env uid dto nid d htype hdest hd0 hacc henv
    refine create_eq_error env uid dto nid .badRequest ?_
    unfold createValidations findOneAccount
    rw [hdest, hacc, henv]
    have htruthy : optTruthy (some d) = true := by
      simpa [optTruthy] using hd0
    simp [htype, htruthy, henv]
    rfl
  · intro env tx dto d htype hdest hd0 hne hacc henv
    refine update_eq_error env tx dto .badRequest ?_
    unfold updateValidations findOneAccount
    rw [hdest, hacc]
    have htruthy : optTruthy (some d) = true := by
      simpa [optTruthy] using hd0
    by_cases hfirst : d ≠ tx.accountId
    · simp [htype, htruthy, hne, Ne.symm hne, hfirst, henv]
      rfl
    · simp [htype, htruthy, hne, Ne.symm hne, hfirst, henv]
      rfl

/-- Witness for `transfer_same_account_amended`: a create request
transferring from account 3 to account 3 is rejected with `BadRequest`, and
so is an update moving the stored 1 → 2 transfer's destination to account
1 while naming `accountId: 1`. -/
theorem transfer_same_account_amended_witness :
    create envAll 1
      ⟨200, transfer, none, ⟨2025, 5, 10⟩, some true, 3, some 3, none⟩ 7 =
      .error .badRequest ∧
    update envAll txTransfer12
      { UpdateDto.empty with accountId := some 1, destinationAccountId := some 1 } =
      .error .badRequest :=
  ⟨transfer_same_account_amended.1 envAll 1 _ 7 3 rfl rfl (by decide) rfl rfl,
    transfer_same_account_amended.2 envAll txTransfer12 _ 1 rfl rfl (by decide)
      (by decide) rfl rfl⟩

/-- C1 counterexample: on an account with balance 1000, creating the paid
EXPENSE of 50 yields 950, but updating that transaction with `amount: 80`
yields balance 1080, not the claimed 920 — the type-unchanged update stores
the raw positive amount, so the post-update apply credits 80 instead of
debiting it. -/
theorem update_scenario_counterexample :
    ((create envAll 1 dtoExpense50 7).toOption.bind fun p =>
      (p.2 bal1000).toOption.bind fun b1 =>
      (update envAll p.1 updAmount80).toOption.bind fun q =>
      (q.2 b1).toOption.map fun b2 =>
        (b1 1, b2 1)) = some (some 950, some 1080) ∧
    (1080 : ℚ) ≠ 920 := by
  refine ⟨?_, by norm_num⟩
  rw [create_eq_of_validations envAll 1 dtoExpense50 7 rfl]
  simp only [Except.toOption, Option.bind]
  rw [update_eq_of_validations envAll (builtTx 1 dtoExpense50 7) updAmount80 rfl]
  norm_num [builtTx, dtoExpense50, updAmount80, UpdateDto.empty, assign,
    resign, amountOr, updateAccountBalance, reverseAccountBalance,
    updateBalance, bal1000, optTruthy, Except.toOption, Except.mapError,
    Except.bind, Option.bind, Option.map]

/-- Folding addition over a list starting at `a` adds the list sum. -/
theorem foldl_add_eq (l : List ℚ) (a : ℚ) :
    l.foldl (fun total val => total + val) a = a + l.sum := by
  induction l generalizing a with
  | nil => simp
  | cons x xs ih => simp only [List.foldl_cons, ih, List.sum_cons]; ring

/-- The z-score emission stage, written without the intermediate `let`. -/
theorem groupAnomalies_eq (g : List Tx) :
    groupAnomalies g =
      if g.length < 3 then []
      else
        (g.filter fun t => decide (zFlag (calculateCategoryStats g).mean
          (calculateCategoryStats g).variance t.amount)).map
          (mkZAnomaly (calculateCategoryStats g).mean
            (calculateCategoryStats g).variance) := rfl

/-- The group mean of constant amounts is that constant. -/
theorem stats_mean_const (g : List Tx) (c : ℚ) (hall : ∀ t ∈ g, t.amount = c)
    (hne : g ≠ []) : (calculateCategoryStats g).mean = c := by
  have hvals : ∀ x ∈ g.map (·.amount), x = c := by
    intro x hx
    obtain ⟨t, ht, rfl⟩ := List.mem_map.mp hx
    exact hall t ht
  have hlen : ((g.map (·.amount)).length : ℚ) ≠ 0 := by
    simpa using fun h => hne (List.length_eq_zero.mp (by simpa using h))
  simp only [calculateCategoryStats]
  rw [foldl_add_eq, zero_add, List.sum_eq_card_nsmul _ c hvals, nsmul_eq_mul,
    mul_div_cancel_left₀ _ hlen]

/-- The group variance of constant amounts is zero. -/
theorem stats_variance_const (g : List Tx) (c : ℚ)
    (hall : ∀ t ∈ g, t.amount = c) :
    (calculateCategoryStats g).variance = 0 := by
  rcases eq_or_ne g [] with rfl | hne
  · simp [calculateCategoryStats]
  · have hm := stats_mean_const g c hall hne
    simp only [calculateCategoryStats] at hm ⊢
    rw [hm]
    have hz : ∀ x ∈ (g.map (·.amount)).map (fun v => (v - c) ^ 2), x = 0 := by
      intro x hx
      obtain ⟨v, hv, rfl⟩ := List.mem_map.mp hx
      obtain ⟨t, ht, rfl⟩ := List.mem_map.mp hv
      rw [hall t ht]
      ring
    rw [foldl_add_eq, zero_add, List.sum_eq_card_nsmul _ 0 hz, smul_zero,
      zero_div]

/-- C10: in a category group whose amounts are all equal, the population
variance is 0, the z-score test (`NaN > 2` under JS float semantics, `0/0·>2`
here — false either way) flags no member, and the z-score emission for the
group is empty. -/
theorem const_group_no_anomaly (g : List Tx) (c : ℚ)
    (hall : ∀ t ∈ g, t.amount = c) :
    groupAnomalies g = [] ∧
    (calculateCategoryStats g).variance = 0 ∧
    (∀ t ∈ g, ¬ zFlag (calculateCategoryStats g).mean
      (calculateCategoryStats g).variance t.amount) := by
  have hvar := stats_variance_const g c hall
  have hflag : ∀ t ∈ g, ¬ zFlag (calculateCategoryStats g).mean
      (calculateCategoryStats g).variance t.amount := by
    intro t _ hz
    rw [zFlag_iff, hvar] at hz
    exact absurd hz.1 (lt_irrefl 0)
  refine ⟨?_, hvar, hflag⟩
  rw [groupAnomalies_eq]
  by_cases hlen : g.length < 3
  · rw [if_pos hlen]
  · rw [if_neg hlen]
    have hnil : g.filter (fun t => decide (zFlag (calculateCategoryStats g).mean
        (calculateCategoryStats g).variance t.amount)) = [] := by
      rw [List.filter_eq_nil_iff]
      intro t ht
      simpa using hflag t ht
    rw [hnil]
    rfl

/-- Witness for `const_group_no_anomaly`: the 3-transaction group with every
amount 5 emits no z-score anomaly. -/
theorem const_group_no_anomaly_witness :
    groupAnomalies constGroup = [] :=
  (const_group_no_anomaly constGroup 5 (by decide)).1

/-- The similar-transaction scan returns the first matching row when every
earlier row has a non-null description that does not match. -/
theorem findSimilar_some (q : String) (pre : List Tx) (t : Tx) (post : List Tx)
    (hpre : ∀ u ∈ pre, ∃ du, u.description = some du ∧
      similarPred q du = false)
    (dt : String) (ht : t.description = some dt)
    (hsim : similarPred q dt = true) :
    findSimilarTransaction q (pre ++ t :: post) = .ok (some t) := by
  induction pre with
  | nil =>
    simp only [List.nil_append, findSimilarTransaction]
    rw [ht]
    simp [hsim]
  | cons u us ih =>
    obtain ⟨du, hdu, hns⟩ := hpre u (List.mem_cons_self u us)
    simp only [List.cons_append, findSimilarTransaction]
    rw [hdu]
    simp only [hns, Bool.false_eq_true, if_false]
    exact ih fun v hv => hpre v (List.mem_cons_of_mem u hv)

/-- The similar-transaction scan throws at the first `NULL`-description row
it reaches before any match. -/
theorem findSimilar_interrupted (q : String) (pre : List Tx) (t : Tx)
    (post : List Tx)
    (hpre : ∀ u ∈ pre, ∃ du, u.description = some du ∧
      similarPred q du = false)
    (ht : t.description = none) :
    findSimilarTransaction q (pre ++ t :: post) = .error () := by
  induction pre with
  | nil =>
    simp only [List.nil_append, findSimilarTransaction]
    rw [ht]
  | cons u us ih =>
    obtain ⟨du, hdu, hns⟩ := hpre u (List.mem_cons_self u us)
    simp only [List.cons_append, findSimilarTransaction]
    rw [hdu]
    simp only [hns, Bool.false_eq_true, if_false]
    exact ih fun v hv => hpre v (List.mem_cons_of_mem u hv)

/-- The similar-transaction scan completes without a match when every row
has a non-null description that does not match. -/
theorem findSimilar_none (q : String) (l : List Tx)
    (hall : ∀ u ∈ l, ∃ du, u.description = some du ∧
      similarPred q du = false) :
    findSimilarTransaction q l = .ok none := by
  induction l with
  | nil => rfl
  | cons u us ih =>
    obtain ⟨du, hdu, hns⟩ := hall u (List.mem_cons_self u us)
    simp only [findSimilarTransaction]
    rw [hdu]
    simp only [hns, Bool.false_eq_true, if_false]
    exact ih fun v hv => hall v (List.mem_cons_of_mem u hv)

/-- C5 (amended): the categorizer's ordered fallback chain, first success
wins — a blank description goes straight to the type-only fallback; a
trained model whose top classification exceeds 0.3 wins first; else the
similar-transaction scan runs: if it reaches a matching recent transaction
before any `NULL`-description row it yields that transaction's `categoryId`
at confidence 0.85, but if it reaches a `NULL`-description row first the
thrown `TypeError` is caught and answered with the type-only fallback,
SKIPPING the keyword step; only when every recent row has a non-null,
non-matching description does a keyword match yield confidence 0.7, else
the first polarity-matching category at confidence 0.3, or `null` with no
such category. -/
theorem suggestCategory_chain (env : ACEnv) (description : String)
    (amount : ℚ) :
    (description = "" ∨ strTrim description = "" →
      suggestCategory env description amount =
        fallbackCategorization env (decide (amount < 0))) ∧
    (¬(description = "" ∨ strTrim description = "") →
      ∀ l p rest, env.isModelTrained = true →
        env.classifications (extractFeatures description amount) =
          (l, p) :: rest →
        3/10 < p →
        suggestCategory env description amount = some ⟨some l, p⟩) ∧
    (¬(description = "" ∨ strTrim description = "") →
      mlStep env description amount = none →
      ∀ pre t post, env.recent = pre ++ t :: post →
        (∀ u ∈ pre, ∃ du, u.description = some du ∧
          similarPred (normalizeText description) du = false) →
        ∀ dt, t.description = some dt →
        similarPred (normalizeText description) dt = true →
        suggestCategory env description amount = some ⟨t.categoryId, 17/20⟩) ∧
    (¬(description = "" ∨ strTrim description = "") →
      mlStep env description amount = none →
      ∀ pre t post, env.recent = pre ++ t :: post →
        (∀ u ∈ pre, ∃ du, u.description = some du ∧
          similarPred (normalizeText description) du = false) →
        t.description = none →
        suggestCategory env description amount =
          fallbackCategorization env (decide (amount < 0))) ∧
    (¬(description = "" ∨ strTrim description = "") →
      mlStep env description amount = none →
      (∀ u ∈ env.recent, ∃ du, u.description = some du ∧
        similarPred (normalizeText description) du = false) →
      ∀ r, matchCategoryByKeywords env (normalizeText description)
          (decide (amount < 0)) = some r →
        suggestCategory env description amount = some r) ∧
    (¬(description = "" ∨ strTrim description = "") →
      mlStep env description amount = none →
      (∀ u ∈ env.recent, ∃ du, u.description = some du ∧
        similarPred (normalizeText description) du = false) →
      matchCategoryByKeywords env (normalizeText description)
        (decide (amount < 0)) = none →
      suggestCategory env description amount =
        fallbackCategorization env (decide (amount < 0))) ∧
    (∀ b : Bool,
      (env.catsFor b = [] → fallbackCategorization env b = none) ∧
      (∀ c rest, env.catsFor b = c :: rest →
        fallbackCategorization env b = some ⟨some c.id, 3/10⟩)) := by
  refine ⟨?_, ?_, ?_, ?_, ?_, ?_, ?_⟩
  · intro hb
    unfold suggestCategory
    rw [if_pos hb]
  · intro hb l p rest htr hcls hp
    have hml : mlStep env description amount = some ⟨some l, p⟩ := by
      unfold mlStep
      rw [htr, if_pos rfl, hcls]
      show (if 3/10 < p then some (⟨some l, p⟩ : Suggestion) else none) =
        some ⟨some l, p⟩
      rw [if_pos hp]
    unfold suggestCategory
    rw [if_neg hb, hml]
  · intro hb hml pre t post hrec hpre dt ht hsim
    have hfind : findSimilarTransaction (normalizeText description) env.recent
        = .ok (some t) := by
      rw [hrec]
      exact findSimilar_some _ pre t post hpre dt ht hsim
    unfold suggestCategory
    rw [if_neg hb, hml, hfind]
  · intro hb hml pre t post hrec hpre ht
    have hfind : findSimilarTransaction (normalizeText description) env.recent
        = .error () := by
      rw [hrec]
      exact findSimilar_interrupted _ pre t post hpre ht
    unfold suggestCategory
    rw [if_neg hb, hml, hfind]
  · intro hb hml hnone r hkw
    have hfind : findSimilarTransaction (normalizeText description) env.recent
        = .ok none := findSimilar_none _ env.recent hnone
    unfold suggestCategory
    rw [if_neg hb, hml, hfind, hkw]
  · intro hb hml hnone hkw
    have hfind : findSimilarTransaction (normalizeText description) env.recent
        = .ok none := findSimilar_none _ env.recent hnone
    unfold suggestCategory
    rw [if_neg hb, hml, hfind, hkw]
  · intro b
    constructor
    · intro h
      unfold fallbackCategorization
      rw [h]
    · intro c rest h
      unfold fallbackCategorization
      rw [h]

/-- Witness for `suggestCategory_chain`, one concrete run per chain stage:
blank → fallback (5, 0.3); trained model → (7, 0.5); similar recent
transaction → (9, 0.85); `NULL`-description row → fallback (5, 0.3);
keyword → (5, 0.7); no polarity category → null. -/
theorem suggestCategory_chain_witness :
    suggestCategory acEnvEx "" (-10) = some ⟨some 5, 3/10⟩ ∧
    suggestCategory acEnvML "mercado" (-10) = some ⟨some 7, 1/2⟩ ∧
    suggestCategory acEnvEx "Netflix" (-30) = some ⟨some 9, 17/20⟩ ∧
    suggestCategory acEnvNull "Netflix" (-30) = some ⟨some 5, 3/10⟩ ∧
    suggestCategory acEnvEx "pagar luz" (-10) = some ⟨some 5, 7/10⟩ ∧
    suggestCategory acEnvEx "zzz" 10 = none := by
  have hneg10 : decide ((-10 : ℚ) < 0) = true := by
    rw [decide_eq_true_eq]; norm_num
  have hneg30 : decide ((-30 : ℚ) < 0) = true := by
    rw [decide_eq_true_eq]; norm_num
  have hpos10 : decide ((10 : ℚ) < 0) = false := by
    rw [decide_eq_false_iff_not]; norm_num
  have hsimnf : ∀ u ∈ acEnvEx.recent, ∃ du, u.description = some du ∧
      similarPred (normalizeText "pagar luz") du = false := by
    intro u hu
    rw [show acEnvEx.recent = [simTx] from rfl, List.mem_singleton] at hu
    subst hu
    exact ⟨"netflix", rfl, by decide⟩
  have hsimzz : ∀ u ∈ acEnvEx.recent, ∃ du, u.description = some du ∧
      similarPred (normalizeText "zzz") du = false := by
    intro u hu
    rw [show acEnvEx.recent = [simTx] from rfl, List.mem_singleton] at hu
    subst hu
    exact ⟨"netflix", rfl, by decide⟩
  refine ⟨?_, ?_, ?_, ?_, ?_, ?_⟩
  · rw [(suggestCategory_chain acEnvEx "" (-10)).1 (Or.inl rfl), hneg10]
    rfl
  · exact (suggestCategory_chain acEnvML "mercado" (-10)).2.1 (by decide)
      7 (1/2) [] rfl rfl (by norm_num)
  · exact (suggestCategory_chain acEnvEx "Netflix" (-30)).2.2.1 (by decide)
      rfl [] simTx [] rfl (by simp) "netflix" rfl (by decide)
  · rw [(suggestCategory_chain acEnvNull "Netflix" (-30)).2.2.2.1 (by decide)
      rfl [] nullDescTx [] rfl (by simp) rfl, hneg30]
    rfl
  · exact (suggestCategory_chain acEnvEx "pagar luz" (-10)).2.2.2.2.1
      (by decide) rfl hsimnf ⟨some 5, 7/10⟩ (by rw [hneg10]; rfl)
  · rw [(suggestCategory_chain acEnvEx "zzz" 10).2.2.2.2.2.1 (by decide)
      rfl hsimzz (by rw [hpos10]; rfl), hpos10]
    exact ((suggestCategory_chain acEnvEx "zzz" 10).2.2.2.2.2.2 false).1 rfl

/-- C5 counterexample: with the untrained-model environment whose single
recent transaction has a `NULL` description, the keyword-matching request
"pagar luz" (keyword "luz" of category 5) is answered with the type-only
fallback at confidence 0.3 — not with the keyword match at confidence 0.7
the claimed chain promises when no recent transaction is similar: the
similar-transaction scan throws on the `NULL` description and the catch
skips the keyword step. -/
theorem suggestCategory_null_counterexample :
    suggestCategory acEnvNull "pagar luz" (-10) = some ⟨some 5, 3/10⟩ ∧
    matchCategoryByKeywords acEnvNull (normalizeText "pagar luz") true =
      some ⟨some 5, 7/10⟩ ∧
    ((3 : ℚ)/10 ≠ 7/10) := by
  have hneg10 : decide ((-10 : ℚ) < 0) = true := by
    rw [decide_eq_true_eq]; norm_num
  refine ⟨?_, rfl, by norm_num⟩
  unfold suggestCategory
  rw [if_neg (by decide)]
  rw [show mlStep acEnvNull "pagar luz" (-10) = none from rfl]
  rw [show findSimilarTransaction (normalizeText "pagar luz")
    acEnvNull.recent = .error () from rfl]
  rw [hneg10]
  rfl

/-- Folding list-append over per-element contributions is `flatMap`. -/
theorem foldl_append_flat {α β : Type} (f : β → List α) (l : List β)
    (init : List α) :
    l.foldl (fun acc x => acc ++ f x) init = init ++ l.flatMap f := by
  induction l generalizing init with
  | nil => simp
  | cons x xs ih =>
      simp only [List.foldl_cons, ih, List.flatMap_cons, List.append_assoc]

/-- The recurring-group loop as a `flatMap`. -/
theorem identifyRecurringGroups_eq (groups : List (String × List Tx)) :
    identifyRecurringGroups groups = groups.flatMap recGroupOf := by
  unfold identifyRecurringGroups
  rw [foldl_append_flat]
  rfl

/-- The interrupted-pattern loop as a `flatMap`. -/
theorem detectInterruptedPatterns_eq (now : Date) (groups : List RecGroup) :
    detectInterruptedPatterns now groups = groups.flatMap (missingOf now) := by
  unfold detectInterruptedPatterns
  rw [foldl_append_flat]
  rfl

/-- `Math.round((b − a) / 86400000)` over two midnight dates is the epoch-day
difference. -/
theorem dayDiff_round (d1 d2 : Date) :
    round ((dateMs d2 - dateMs d1) / 86400000) = epochDay d2 - epochDay d1 := by
  unfold dateMs
  have h : ((epochDay d2 : ℚ) * 86400000 - (epochDay d1 : ℚ) * 86400000) /
      86400000 = ((epochDay d2 - epochDay d1 : ℤ) : ℚ) := by
    push_cast
    ring
  rw [h, round_intCast]

/-- Euclidean division is the division of `ℤ`. -/
theorem int_ediv_eq_div (i n : ℤ) : i.ediv n = i / n := rfl

/-- Euclidean remainder is the remainder of `ℤ`. -/
theorem int_emod_eq_mod (i n : ℤ) : i.emod n = i % n := rfl

/-- Every month has at least 28 days. -/
theorem daysInMonth_ge (y : ℤ) (m : ℕ) : 28 ≤ daysInMonth y m := by
  unfold daysInMonth
  split_ifs <;> norm_num

/-- Every month has at most 31 days. -/
theorem daysInMonth_le (y : ℤ) (m : ℕ) : daysInMonth y m ≤ 31 := by
  unfold daysInMonth
  split_ifs <;> norm_num

/-- `setMonth` always lands on a real month index. -/
theorem addMonths_month0_lt (d : Date) (k : ℤ) : (addMonths d k).month0 < 12 := by
  have h1 : 0 ≤ (d.year * 12 + d.month0 + k).emod 12 :=
    Int.emod_nonneg _ (by norm_num)
  have h2 : (d.year * 12 + d.month0 + k).emod 12 < 12 :=
    Int.emod_lt_of_pos _ (by norm_num)
  simp only [addMonths]
  split_ifs with hov hm <;> dsimp only <;> omega

/-- The day after `setMonth`: unchanged, or (on overflow into the next
month) at most 3 while the original day was at least 29. -/
theorem addMonths_day (d : Date) (k : ℤ) (h31 : d.day ≤ 31) (h1 : 1 ≤ d.day) :
    1 ≤ (addMonths d k).day ∧
    ((addMonths d k).day = d.day ∨
      ((addMonths d k).day ≤ 3 ∧ 29 ≤ d.day)) := by
  have hge := daysInMonth_ge ((d.year * 12 + d.month0 + k).ediv 12)
    ((d.year * 12 + d.month0 + k).emod 12).toNat
  simp only [addMonths]
  split_ifs with hov hm <;> dsimp only <;> omega

/-- With day-of-month at most 28, `setMonth` shifts the linear month index
exactly and keeps the day. -/
theorem monthIdx_addMonths_of_le28 (d : Date) (k : ℤ) (h : d.day ≤ 28) :
    monthIdx (addMonths d k) = monthIdx d + k ∧ (addMonths d k).day = d.day := by
  have hge := daysInMonth_ge ((d.year * 12 + d.month0 + k).ediv 12)
    ((d.year * 12 + d.month0 + k).emod 12).toNat
  have h1 : 0 ≤ (d.year * 12 + d.month0 + k).emod 12 :=
    Int.emod_nonneg _ (by norm_num)
  simp only [addMonths]
  split_ifs with hov hm
  · exact absurd hov (by omega)
  · exact absurd hov (by omega)
  · unfold monthIdx
    dsimp only
    simp only [int_ediv_eq_div, int_emod_eq_mod]
    exact ⟨by omega, trivial⟩

/-- Date order (same time-of-day) forces month order, given valid days. -/
theorem monthIdx_le_of_dateLe (a b : Date) (h : dateLe a b = true)
    (ha : 1 ≤ a.day) (hb : b.day ≤ 31) : monthIdx a ≤ monthIdx b := by
  unfold dateLe Date.key at h
  rw [decide_eq_true_eq] at h
  unfold monthIdx
  omega

/-- Month order plus day order gives date order. -/
theorem dateLe_of_monthIdx_le (a b : Date) (hidx : monthIdx a ≤ monthIdx b)
    (hday : a.day ≤ b.day) : dateLe a b = true := by
  unfold dateLe Date.key
  rw [decide_eq_true_eq]
  unfold monthIdx at hidx
  omega

/-- A date's `"YYYY-MM"` month is the month of its linear index. -/
theorem monthOfDate_eq_ymOfIdx (d : Date) (h : d.month0 < 12) :
    monthOfDate d = ymOfIdx (monthIdx d) := by
  unfold monthOfDate ymOfIdx monthIdx
  rw [Prod.ext_iff]
  constructor <;> dsimp only <;> simp only [int_ediv_eq_div, int_emod_eq_mod] <;> omega

/-- The month key of the month with linear index `i` is `i + 1`. -/
theorem ymKey_ymOfIdx (i : ℤ) : ymKey (ymOfIdx i) = i + 1 := by
  unfold ymKey ymOfIdx
  dsimp only
  simp only [int_ediv_eq_div, int_emod_eq_mod]
  omega

/-- Months with equal linear index are equal. -/
theorem ymOfIdx_inj (i j : ℤ) (h : ymOfIdx i = ymOfIdx j) : i = j := by
  have h2 := congrArg ymKey h
  rw [ymKey_ymOfIdx, ymKey_ymOfIdx] at h2
  omega

/-- The canonical month window has no repeated month. -/
theorem monthRange_nodup (s e : Date) : (monthRange s e).Nodup := by
  unfold monthRange
  refine List.Nodup.map ?_ (List.nodup_range _)
  intro a b h
  have h2 := ymOfIdx_inj _ _ h
  omega

/-- As long as the running date's day-of-month stays at most 28, the
zero-fill loop visits exactly the canonical month window: one month per
linear index from the current month up to the end month. -/
theorem monthWalkAux_spec (e : Date) (he31 : e.day ≤ 31) :
    ∀ (fuel : ℕ) (cur : Date), cur.day ≤ 28 → 1 ≤ cur.day → cur.day ≤ e.day →
      cur.month0 < 12 → (monthIdx e + 1 - monthIdx cur).toNat ≤ fuel →
      monthWalkAux fuel cur e =
        (List.range ((monthIdx e + 1 - monthIdx cur).toNat)).map
          (fun k : ℕ => ymOfIdx (monthIdx cur + k)) := by
  intro fuel
  induction fuel with
  | zero =>
    intro cur h28 h1 hde hm0 hf
    have h0 : (monthIdx e + 1 - monthIdx cur).toNat = 0 := by omega
    rw [h0]
    rfl
  | succ n ih =>
    intro cur h28 h1 hde hm0 hf
    by_cases hcur : monthIdx cur ≤ monthIdx e
    · have hcond : dateLe cur e = true := dateLe_of_monthIdx_le cur e hcur hde
      obtain ⟨hidx1, hday1⟩ := monthIdx_addMonths_of_le28 cur 1 h28
      have hm0' : (addMonths cur 1).month0 < 12 := addMonths_month0_lt cur 1
      have hstep := ih (addMonths cur 1) (by rw [hday1]; exact h28)
        (by rw [hday1]; exact h1) (by rw [hday1]; exact hde) hm0'
        (by rw [hidx1]; omega)
      simp only [monthWalkAux]
      rw [if_pos hcond, hstep, hidx1, monthOfDate_eq_ymOfIdx cur hm0]
      have hN : (monthIdx e + 1 - monthIdx cur).toNat
          = (monthIdx e + 1 - (monthIdx cur + 1)).toNat + 1 := by omega
      rw [hN, List.range_succ_eq_map, List.map_cons, List.map_map]
      congr 1
      · norm_num
      · refine List.map_congr_left ?_
        intro k _
        simp only [Function.comp]
        congr 1
        push_cast
        ring
    · have hcond : dateLe cur e ≠ true := by
        intro hc
        exact hcur (monthIdx_le_of_dateLe cur e hc h1 he31)
      simp only [monthWalkAux]
      rw [if_neg hcond]
      have h0 : (monthIdx e + 1 - monthIdx cur).toNat = 0 := by omega
      rw [h0]
      rfl

/-- A key is found by `lookup` exactly when it is one of the map's keys. -/
theorem lookup_isSome_iff (acc : List (YearMonth × ℚ)) (k : YearMonth) :
    (acc.lookup k).isSome = true ↔ k ∈ acc.map Prod.fst := by
  induction acc with
  | nil => simp [List.lookup]
  | cons p ps ih =>
    obtain ⟨a, b⟩ := p
    by_cases hk : k = a
    · subst hk
      rw [List.lookup_cons, beq_self_eq_true]
      simp
    · rw [List.lookup_cons, beq_eq_false_iff_ne.mpr hk]
      simp [ih, hk]

/-- Adding an amount either keeps the key list or appends the new key. -/
theorem addMonthAmount_keys (acc : List (YearMonth × ℚ)) (k : YearMonth)
    (a : ℚ) :
    (addMonthAmount acc k a).map Prod.fst =
      if (acc.lookup k).isSome then acc.map Prod.fst
      else acc.map Prod.fst ++ [k] := by
  unfold addMonthAmount
  split_ifs with h
  · rw [List.map_map]
    refine List.map_congr_left ?_
    intro p _
    by_cases hp : p.1 = k
    · simp [Function.comp, hp]
    · simp [Function.comp, hp]
  · simp

/-- Every key of the folded month map comes from the seed map or from the
month of one of the folded transactions. -/
theorem agg_keys_sub :
    ∀ (txs : List Tx) (acc : List (YearMonth × ℚ)) (x : YearMonth),
      x ∈ ((txs.foldl
          (fun acc t => addMonthAmount acc (monthOfDate t.date) t.amount) acc
        ).map Prod.fst) →
      x ∈ acc.map Prod.fst ∨ ∃ t ∈ txs, x = monthOfDate t.date := by
  intro txs
  induction txs with
  | nil =>
    intro acc x h
    exact Or.inl h
  | cons t ts ih =>
    intro acc x h
    rcases ih (addMonthAmount acc (monthOfDate t.date) t.amount) x h with
      h2 | ⟨u, hu, hx⟩
    · rw [addMonthAmount_keys] at h2
      split_ifs at h2 with hs
      · exact Or.inl h2
      · rcases List.mem_append.1 h2 with h3 | h3
        · exact Or.inl h3
        · right
          refine ⟨t, List.mem_cons_self t ts, ?_⟩
          simpa using h3
    · exact Or.inr ⟨u, List.mem_cons_of_mem _ hu, hx⟩

/-- Folding transactions into a month map with distinct keys keeps the
keys distinct. -/
theorem agg_keys_nodup :
    ∀ (txs : List Tx) (acc : List (YearMonth × ℚ)),
      (acc.map Prod.fst).Nodup →
      ((txs.foldl
          (fun acc t => addMonthAmount acc (monthOfDate t.date) t.amount) acc
        ).map Prod.fst).Nodup := by
  intro txs
  induction txs with
  | nil =>
    intro acc h
    exact h
  | cons t ts ih =>
    intro acc h
    refine ih _ ?_
    rw [addMonthAmount_keys]
    split_ifs with hs
    · exact h
    · rw [List.nodup_append]
      refine ⟨h, List.nodup_singleton _, fun x hx hx2 => ?_⟩
      rw [List.mem_singleton] at hx2
      subst hx2
      exact hs ((lookup_isSome_iff acc (monthOfDate t.date)).mpr hx)

/-- The months of the monthly aggregates are the keys of the month map. -/
theorem agg_months_eq (txs : List Tx) :
    (aggregateByMonth txs).map (·.month) =
      (txs.foldl
        (fun acc t => addMonthAmount acc (monthOfDate t.date) t.amount) []
      ).map Prod.fst := by
  unfold aggregateByMonth
  rw [List.map_map]
  rfl

/-- `aggregateByMonth` emits each month at most once. -/
theorem aggregate_months_nodup (txs : List Tx) :
    ((aggregateByMonth txs).map (·.month)).Nodup := by
  rw [agg_months_eq]
  exact agg_keys_nodup txs [] (by simp)

/-- Each aggregated month is the month of one of the transactions. -/
theorem aggregate_months_sub (txs : List Tx) (x : YearMonth)
    (hx : x ∈ (aggregateByMonth txs).map (·.month)) :
    ∃ t ∈ txs, x = monthOfDate t.date := by
  rw [agg_months_eq] at hx
  rcases agg_keys_sub txs [] x hx with h | h
  · simp at h
  · exact h

/-- Membership in the months of a zero-filled series. -/
theorem mem_fillMissingMonths (data : List MonthlyAggregate) (s e : Date)
    (a : YearMonth) :
    (a ∈ (fillMissingMonths data s e).map (·.month)) ↔
      (a ∈ data.map (·.month) ∨
        (a ∈ monthWalk s e ∧ a ∉ data.map (·.month))) := by
  unfold fillMissingMonths
  rw [List.map_append, List.mem_append, List.map_map]
  apply or_congr Iff.rfl
  constructor
  · intro h
    rcases List.mem_map.1 h with ⟨ym, hym, hya⟩
    rcases List.mem_filter.1 hym with ⟨hw, hqm⟩
    rw [decide_eq_true_eq] at hqm
    have hya2 : ym = a := hya
    subst hya2
    exact ⟨hw, fun hmem => hqm (List.elem_iff.mpr hmem)⟩
  · intro h
    obtain ⟨hw, hmem⟩ := h
    refine List.mem_map.2 ⟨a, List.mem_filter.2 ⟨hw, ?_⟩, rfl⟩
    rw [decide_eq_true_eq]
    exact fun hc => hmem (List.elem_iff.mp hc)

/-- The months of a zero-filled series stay distinct. -/
theorem fillMissingMonths_months_nodup (data : List MonthlyAggregate)
    (s e : Date) (hnd : (data.map (·.month)).Nodup)
    (hwnd : (monthWalk s e).Nodup) :
    ((fillMissingMonths data s e).map (·.month)).Nodup := by
  unfold fillMissingMonths
  rw [List.map_append, List.map_map, List.nodup_append]
  refine ⟨hnd, ?_, ?_⟩
  · refine List.Nodup.map ?_ (hwnd.filter _)
    intro x y hxy
    exact hxy
  · intro x hx hx2
    rcases List.mem_map.1 hx2 with ⟨ym, hym, hya⟩
    rcases List.mem_filter.1 hym with ⟨_, hqm⟩
    rw [decide_eq_true_eq] at hqm
    have hya2 : ym = x := hya
    subst hya2
    exact hqm (List.elem_iff.mpr hx)

/-- When the data's months all lie in the walked window and are distinct,
zero-filling produces exactly the walked months, up to order. -/
theorem fillMissingMonths_months_perm (data : List MonthlyAggregate)
    (s e : Date)
    (hsub : ∀ x ∈ data.map (·.month), x ∈ monthWalk s e)
    (hnd : (data.map (·.month)).Nodup)
    (hwnd : (monthWalk s e).Nodup) :
    ((fillMissingMonths data s e).map (·.month)).Perm (monthWalk s e) := by
  rw [List.perm_ext_iff_of_nodup
    (fillMissingMonths_months_nodup data s e hnd hwnd) hwnd]
  intro a
  rw [mem_fillMissingMonths]
  constructor
  · rintro (h | ⟨h, _⟩)
    · exact hsub a h
    · exact h
  · intro h
    by_cases hd : a ∈ data.map (·.month)
    · exact Or.inl hd
    · exact Or.inr ⟨h, hd⟩

/-- A list of aggregates sorted by month key whose months are a permutation
of a strictly key-increasing month list has exactly that month list. -/
theorem sorted_months_eq (l : List MonthlyAggregate) (R : List YearMonth)
    (hperm : (l.map (·.month)).Perm R)
    (hsortl : l.Sorted aggLe)
    (hR : R.Pairwise (fun a b => ymKey a < ymKey b)) :
    l.map (·.month) = R := by
  have hRnd : (R.map ymKey).Nodup :=
    (List.pairwise_map.mpr (hR.imp fun h => ne_of_lt h))
  have hlnd : ((l.map (·.month)).map ymKey).Nodup :=
    ((hperm.map ymKey).nodup_iff).mpr hRnd
  have hple : (l.map (·.month)).Pairwise (fun a b => ymKey a ≤ ymKey b) := by
    rw [List.pairwise_map]
    exact hsortl
  have hpne : (l.map (·.month)).Pairwise (fun a b => ymKey a ≠ ymKey b) :=
    List.pairwise_map.mp hlnd
  have hplt : (l.map (·.month)).Pairwise (fun a b => ymKey a < ymKey b) :=
    (hple.and hpne).imp fun h => lt_of_le_of_ne h.1 h.2
  haveI : IsAntisymm YearMonth (fun a b => ymKey a < ymKey b) :=
    ⟨fun a b h1 h2 => absurd (lt_trans h1 h2) (lt_irrefl _)⟩
  exact List.eq_of_perm_of_sorted hperm hplt hR

/-- Folding `(· + f ·)` over a list is adding the sum of the mapped list. -/
theorem foldl_add_map {α : Type} (f : α → ℚ) (l : List α) (a : ℚ) :
    l.foldl (fun s x => s + f x) a = a + (l.map f).sum := by
  induction l generalizing a with
  | nil => simp
  | cons x xs ih =>
      rw [List.foldl_cons, ih, List.map_cons, List.sum_cons]
      ring

/-- The 100/120/110/130 example evaluates to 1190/10 = 119. -/
theorem wmaExample_amount :
    (calculateWeightedMovingAverage wmaExample).amount = 119 := by
  have hsorted : wmaExample.insertionSort aggLe = wmaExample :=
    List.Sorted.insertionSort_eq (by decide)
  simp only [calculateWeightedMovingAverage]
  rw [if_neg (by decide)]
  rw [hsorted]
  norm_num [wmaExample, List.enum, List.enumFrom, List.foldl]

/-- C6 amended: with fewer than 3 months the result is the simple average
(0 when empty) at confidence exactly 0.3; otherwise, over the data sorted
ascending by month with linear weights `1..n`, the amount is
`Σ(amount_i·w_i)/Σ(w_i)` and the confidence is
`(1 − min(stdDev/weightedAverage, 1)) · min(n/12, 1)` with `stdDev` the root
of the population variance around the weighted average — and for monthly
totals 100, 120, 110, 130 the prediction is 1190/10 = **119** (the claimed
1210/10 = 121 miscomputes the weighted sum). -/
theorem wma_spec (monthlyData : List MonthlyAggregate) :
    (monthlyData.length < 3 →
      (calculateWeightedMovingAverage monthlyData).amount =
        (if 0 < monthlyData.length then
          ((monthlyData.map (·.amount)).sum) / (monthlyData.length : ℚ)
        else 0) ∧
      (calculateWeightedMovingAverage monthlyData).confidence = 3 / 10) ∧
    (3 ≤ monthlyData.length →
      (calculateWeightedMovingAverage monthlyData).amount =
        wmaAmountSpec (monthlyData.insertionSort aggLe) ∧
      (calculateWeightedMovingAverage monthlyData).confidence =
        wmaConfidenceSpec (monthlyData.insertionSort aggLe)) ∧
    (calculateWeightedMovingAverage wmaExample).amount = 119 := by
  refine ⟨?_, ?_, wmaExample_amount⟩
  · intro h
    simp only [calculateWeightedMovingAverage]
    rw [if_pos h]
    refine ⟨?_, rfl⟩
    rw [foldl_add_map (fun item : MonthlyAggregate => item.amount), zero_add]
  · intro h
    simp only [calculateWeightedMovingAverage]
    rw [if_neg (not_lt.mpr h)]
    have hws : (monthlyData.insertionSort aggLe).enum.foldl
        (fun s p => s + p.2.amount * ((p.1 : ℚ) + 1)) 0 =
        ((monthlyData.insertionSort aggLe).enum.map
          fun p => p.2.amount * ((p.1 : ℚ) + 1)).sum := by
      rw [foldl_add_map (fun p : ℕ × MonthlyAggregate => p.2.amount * ((p.1 : ℚ) + 1)), zero_add]
    have hwt : (monthlyData.insertionSort aggLe).enum.foldl
        (fun s p => s + ((p.1 : ℚ) + 1)) 0 =
        ((List.range (monthlyData.insertionSort aggLe).length).map
          fun i : ℕ => ((i : ℚ) + 1)).sum := by
      rw [foldl_add_map (fun p : ℕ × MonthlyAggregate => ((p.1 : ℚ) + 1)),
        zero_add]
      congr 1
      rw [show ((monthlyData.insertionSort aggLe).enum.map
          fun p => ((p.1 : ℚ) + 1)) =
          ((monthlyData.insertionSort aggLe).enum.map Prod.fst).map
            (fun i : ℕ => ((i : ℚ) + 1)) by rw [List.map_map]; rfl]
      rw [List.enum_map_fst]
    have hvr : ∀ w : ℚ, (monthlyData.insertionSort aggLe).foldl
        (fun total item => total + (item.amount - w) ^ 2) 0 =
        ((monthlyData.insertionSort aggLe).map
          fun it => (it.amount - w) ^ 2).sum := by
      intro w
      rw [foldl_add_map (fun item : MonthlyAggregate => (item.amount - w) ^ 2), zero_add]
    constructor
    · show (_ : ℚ) = _
      rw [hws, hwt]
      rfl
    · show (_ : ℝ) = _
      unfold wmaConfidenceSpec
      rw [hws, hwt, hvr]
      rfl

/-- Witness for `wma_spec`: a single month returns its own amount, and the
four-month example matches the spec formula. -/
theorem wma_spec_witness :
    (calculateWeightedMovingAverage [⟨(2025, 1), 50⟩]).amount = 50 ∧
    (calculateWeightedMovingAverage wmaExample).amount =
      wmaAmountSpec (wmaExample.insertionSort aggLe) := by
  constructor
  · have h := ((wma_spec [⟨(2025, 1), 50⟩]).1 (by decide)).1
    rw [h]
    norm_num
  · exact ((wma_spec wmaExample).2.1 (by decide)).1

/-- C6 counterexample: the spec's end-to-end scenario miscomputes the
weighted sum — `100·1 + 120·2 + 110·3 + 130·4 = 1190`, so the prediction for
monthly totals 100, 120, 110, 130 is 119, not 121. -/
theorem wma_example_counterexample :
    (calculateWeightedMovingAverage wmaExample).amount = 119 ∧
    (119 : ℚ) ≠ 121 :=
  ⟨wmaExample_amount, by norm_num⟩

/-- C9 amended: `detectUnusualFrequency` pipes the similarity groups through
`identifyRecurringGroups` into `detectInterruptedPatterns` (and returns `[]`
from its catch when the grouping stage throws on a `NULL`-description row);
a record is emitted exactly for a recurring group whose last transaction is
more than `avgInterval · 1.5` days old, and it carries
`daysPastDue = daysSinceLastTransaction − avgInterval`,
`expectedDate = lastDate + avgInterval` days, and `averageAmount` equal to
the **absolute value of the mean of the signed amounts** (not the mean of the
absolute amounts). -/
theorem missing_recurrence_fields (now : Date) (txs : List Tx) :
    ((∀ gs, groupSimilarTransactions txs = .ok gs →
      detectUnusualFrequency now txs =
        detectInterruptedPatterns now (identifyRecurringGroups gs)) ∧
     (groupSimilarTransactions txs = .error () →
      detectUnusualFrequency now txs = [])) ∧
    (∀ groups : List RecGroup, ∀ r ∈ detectInterruptedPatterns now groups,
      ∃ g ∈ groups, ∃ last, g.transactions.getLast? = some last ∧
        g.avgInterval * (3 / 2) <
          ((round ((dateMs now - dateMs last.date) / 86400000) : ℤ) : ℚ) ∧
        r.description = last.description ∧
        r.lastDate = last.date ∧
        r.expectedDateMs = dateMs last.date + g.avgInterval * 86400000 ∧
        r.daysPastDue =
          ((round ((dateMs now - dateMs last.date) / 86400000) : ℤ) : ℚ) -
            g.avgInterval ∧
        r.averageAmount =
          |(g.transactions.foldl (fun sum tx => sum + tx.amount) 0) /
            (g.transactions.length : ℚ)|) ∧
    (∀ groups : List RecGroup, ∀ g ∈ groups, ∀ last,
      g.transactions.getLast? = some last →
      g.avgInterval * (3 / 2) <
        ((round ((dateMs now - dateMs last.date) / 86400000) : ℤ) : ℚ) →
      (⟨last.description, last.date,
        dateMs last.date + g.avgInterval * 86400000,
        ((round ((dateMs now - dateMs last.date) / 86400000) : ℤ) : ℚ) -
          g.avgInterval,
        |(g.transactions.foldl (fun sum tx => sum + tx.amount) 0) /
          (g.transactions.length : ℚ)|⟩ : MissingRecurrence) ∈
        detectInterruptedPatterns now groups) := by
  refine ⟨⟨?_, ?_⟩, ?_, ?_⟩
  · intro gs hgs
    unfold detectUnusualFrequency
    rw [hgs]
  · intro hge
    unfold detectUnusualFrequency
    rw [hge]
  · intro groups r hr
    rw [detectInterruptedPatterns_eq] at hr
    obtain ⟨g, hg, hrg⟩ := List.mem_flatMap.mp hr
    unfold missingOf at hrg
    cases hlast : g.transactions.getLast? with
    | none => rw [hlast] at hrg; exact absurd hrg (List.not_mem_nil r)
    | some last =>
        rw [hlast] at hrg
        dsimp only at hrg
        by_cases hcond : g.avgInterval * (3 / 2) <
            ((round ((dateMs now - dateMs last.date) / 86400000) : ℤ) : ℚ)
        · rw [if_pos hcond] at hrg
          rw [List.mem_singleton] at hrg
          subst hrg
          exact ⟨g, hg, last, hlast, hcond, rfl, rfl, rfl, rfl, rfl⟩
        · rw [if_neg hcond] at hrg
          exact absurd hrg (List.not_mem_nil r)
  · intro groups g hg last hlast hcond
    rw [detectInterruptedPatterns_eq]
    refine List.mem_flatMap.mpr ⟨g, hg, ?_⟩
    unfold missingOf
    rw [hlast]
    dsimp only
    rw [if_pos hcond]
    exact List.mem_singleton.mpr rfl

/-- Witness for `missing_recurrence_fields`: the 30-day group whose last
transaction (Mar 2 2025) is 60 > 45 days before May 1 2025 emits its
record. -/
theorem missing_recurrence_fields_witness :
    (⟨rT3.description, rT3.date, dateMs rT3.date + (30 : ℚ) * 86400000,
      ((round ((dateMs may2025 - dateMs rT3.date) / 86400000) : ℤ) : ℚ) - 30,
      |(([rT1, rT2, rT3] : List Tx).foldl (fun sum tx => sum + tx.amount) 0) /
        (([rT1, rT2, rT3] : List Tx).length : ℚ)|⟩ : MissingRecurrence) ∈
      detectInterruptedPatterns may2025 [recGroupEx] := by
  refine (missing_recurrence_fields may2025 []).2.2 [recGroupEx] recGroupEx
    (List.mem_singleton.mpr rfl) rT3 (by decide) ?_
  rw [dayDiff_round]
  have h : epochDay may2025 - epochDay rT3.date = 60 := by decide
  rw [h]
  norm_num [recGroupEx]

/-- C9 counterexample: for the recurring series with amounts
−100, 100, −100 (30-day cadence, 60 days past due), the emitted record's
`averageAmount` is `|(-100+100-100)/3| = 100/3`, while the mean of the
absolute amounts is 100. -/
theorem missing_recurrence_counterexample :
    ((detectUnusualFrequency may2025 recSeries).map fun r =>
      (r.daysPastDue, r.averageAmount)) = [(30, 100 / 3)] ∧
    (|(-100 : ℚ)| + |(100 : ℚ)| + |(-100 : ℚ)|) / 3 = 100 ∧
    (100 / 3 : ℚ) ≠ 100 := by
  refine ⟨?_, by norm_num, by norm_num⟩
  have hgroups : groupSimilarTransactions recSeries =
      .ok [("assinatura", [rT1, rT2, rT3])] := by decide
  have h12 : dateMs rT1.date ≤ dateMs rT2.date := by
    unfold dateMs
    have e1 : epochDay rT1.date = 20089 := by decide
    have e2 : epochDay rT2.date = 20119 := by decide
    rw [e1, e2]
    norm_num
  have h13 : dateMs rT1.date ≤ dateMs rT3.date := by
    unfold dateMs
    have e1 : epochDay rT1.date = 20089 := by decide
    have e3 : epochDay rT3.date = 20149 := by decide
    rw [e1, e3]
    norm_num
  have h23 : dateMs rT2.date ≤ dateMs rT3.date := by
    unfold dateMs
    have e2 : epochDay rT2.date = 20119 := by decide
    have e3 : epochDay rT3.date = 20149 := by decide
    rw [e2, e3]
    norm_num
  have hsort : (([rT1, rT2, rT3] : List Tx).insertionSort
      fun a b => dateMs a.date ≤ dateMs b.date) = [rT1, rT2, rT3] :=
    List.Sorted.insertionSort_eq (by
      simp [List.sorted_cons, h12, h13, h23])
  have hiv : dayIntervals [rT1, rT2, rT3] = [30, 30] := by
    unfold dayIntervals
    simp only [List.zip, List.zipWith, List.tail, List.map]
    rw [dayDiff_round, dayDiff_round]
    decide
  have hrec : recGroupOf ("assinatura", [rT1, rT2, rT3]) = [recGroupEx] := by
    unfold recGroupOf
    rw [if_neg (by decide)]
    simp only [hsort, hiv]
    have havg : ((([30, 30] : List ℤ).foldl (fun sum val => sum + (val : ℚ)) 0) /
        (([30, 30] : List ℤ).length : ℚ)) = 30 := by
      norm_num [List.foldl]
    rw [havg]
    have hvar : ((([30, 30] : List ℤ).map fun val => ((val : ℚ) - 30) ^ 2).foldl
        (fun sum val => sum + val) 0) / (([30, 30] : List ℤ).length : ℚ) = 0 := by
      norm_num [List.foldl, List.map]
    rw [hvar]
    rw [if_pos ((recurringCond_iff 30 0).mpr (by norm_num))]
    rfl
  have hdef : detectUnusualFrequency may2025 recSeries =
      detectInterruptedPatterns may2025
        (identifyRecurringGroups [("assinatura", [rT1, rT2, rT3])]) := by
    unfold detectUnusualFrequency
    rw [hgroups]
  rw [hdef, identifyRecurringGroups_eq]
  simp only [List.flatMap_cons, List.flatMap_nil, List.append_nil, hrec]
  rw [detectInterruptedPatterns_eq]
  simp only [List.flatMap_cons, List.flatMap_nil, List.append_nil]
  have hmiss : missingOf may2025 recGroupEx =
      [⟨rT3.description, rT3.date, dateMs rT3.date + (30 : ℚ) * 86400000,
        (((60 : ℤ) : ℚ)) - 30,
        |(([rT1, rT2, rT3] : List Tx).foldl (fun sum tx => sum + tx.amount) 0) /
          (([rT1, rT2, rT3] : List Tx).length : ℚ)|⟩] := by
    unfold missingOf
    rw [show recGroupEx.transactions.getLast? = some rT3 from by decide]
    simp only [dayDiff_round]
    rw [show epochDay may2025 - epochDay rT3.date = 60 from by decide]
    rw [if_pos (by norm_num [recGroupEx])]
    simp [recGroupEx]
  rw [hmiss]
  simp only [List.map_cons, List.map_nil]
  have hsum : (([rT1, rT2, rT3] : List Tx).foldl
      (fun sum tx => sum + tx.amount) 0) = -100 := by
    simp only [List.foldl, rT1, rT2, rT3, recTx]
    norm_num
  rw [hsum]
  norm_num [abs_of_nonpos]

/-- C8: with fewer than 5 transactions in the 90-day window `detectAnomalies`
returns the empty list; within any category group of at least 3 transactions,
a member is emitted as a z-score anomaly exactly when its z-score
`|amount − mean| / stdDev` strictly exceeds 2, and every emitted record's
`anomalyScore` is `min(zScore / 4, 1)`. -/
theorem detectAnomalies_spec :
    (∀ (txs : List Tx) (maxResults : ℕ), txs.length < 5 →
      detectAnomalies txs maxResults = []) ∧
    (∀ g : List Tx, 3 ≤ g.length →
      (∀ t ∈ g,
        (mkZAnomaly (calculateCategoryStats g).mean
            (calculateCategoryStats g).variance t ∈ groupAnomalies g ↔
          2 < zScoreR (calculateCategoryStats g).mean
            (calculateCategoryStats g).variance t.amount)) ∧
      (∀ a ∈ groupAnomalies g, ∃ t ∈ g,
        a = mkZAnomaly (calculateCategoryStats g).mean
          (calculateCategoryStats g).variance t ∧
        2 < zScoreR (calculateCategoryStats g).mean
          (calculateCategoryStats g).variance t.amount ∧
        a.anomalyScore = min (zScoreR (calculateCategoryStats g).mean
          (calculateCategoryStats g).variance t.amount / 4) 1)) := by
  constructor
  · intro txs maxResults h
    unfold detectAnomalies
    rw [if_pos h]
  · intro g h3
    have hng : ¬ g.length < 3 := not_lt.mpr h3
    constructor
    · intro t ht
      rw [groupAnomalies_eq, if_neg hng]
      constructor
      · intro hmem
        obtain ⟨t', ht', heq⟩ := List.mem_map.mp hmem
        have hflag : zFlag (calculateCategoryStats g).mean
            (calculateCategoryStats g).variance t'.amount := by
          have hd := (List.mem_filter.mp ht').2
          rw [decide_eq_true_eq] at hd
          exact hd
        have hamt : t'.amount = t.amount := congrArg Anomaly.amount heq
        rw [← hamt]
        exact hflag
      · intro hz
        refine List.mem_map.mpr ⟨t, List.mem_filter.mpr ⟨ht, ?_⟩, rfl⟩
        rw [decide_eq_true_eq]
        exact hz
    · intro a ha
      rw [groupAnomalies_eq, if_neg hng] at ha
      obtain ⟨t, ht, rfl⟩ := List.mem_map.mp ha
      have hd := (List.mem_filter.mp ht).2
      rw [decide_eq_true_eq] at hd
      exact ⟨t, (List.mem_filter.mp ht).1, rfl, hd, rfl⟩

/-- Witness for `detectAnomalies_spec`: a single transaction is below the
5-transaction floor, and in the group `[100,100,100,100,100,700]` (mean 200,
variance 50000) the 700 outlier (z-score √5 > 2) is emitted. -/
theorem detectAnomalies_spec_witness :
    detectAnomalies [catTx 1 100] 5 = [] ∧
    mkZAnomaly (calculateCategoryStats outlierGroup).mean
      (calculateCategoryStats outlierGroup).variance (catTx 6 700) ∈
        groupAnomalies outlierGroup := by
  constructor
  · exact detectAnomalies_spec.1 [catTx 1 100] 5 (by decide)
  · apply ((detectAnomalies_spec.2 outlierGroup (by decide)).1 (catTx 6 700)
      (by decide)).mpr
    have hm : (calculateCategoryStats outlierGroup).mean = 200 := by
      norm_num [calculateCategoryStats, outlierGroup, catTx]
    have hv : (calculateCategoryStats outlierGroup).variance = 50000 := by
      norm_num [calculateCategoryStats, outlierGroup, catTx]
    rw [hm, hv]
    exact (zFlag_iff 200 50000 700).mpr ⟨by norm_num, by norm_num⟩

/-- C1 amended: every successful update's balance step is `reverse` of the
pre-update snapshot when the old `isPaid` was true, followed (after the
persist) by `apply` of the post-update row when the new `isPaid` is true;
and the scenario holds with the already-signed update amount −80 (`update`
does not re-sign a type-unchanged amount): balance 1000, create paid
EXPENSE 50 → 950, update amount to −80 → 920, delete → 1000. -/
theorem update_balance_protocol_amended :
    (∀ env tx dto p b, update env tx dto = .ok p →
      p.2 b =
        (if tx.isPaid then reverseAccountBalance tx b else .ok b).bind
          fun b1 =>
            if p.1.isPaid then updateAccountBalance p.1 b1 else .ok b1) ∧
    ((create envAll 1 dtoExpense50 7).toOption.bind fun p =>
      (p.2 bal1000).toOption.bind fun b1 =>
      (update envAll p.1 updAmountNeg80).toOption.bind fun q =>
      (q.2 b1).toOption.bind fun b2 =>
      (Ledger.remove q.1 b2).toOption.map fun b3 =>
        (b1 1, b2 1, b3 1)) = some (some 950, some 920, some 1000) := by
  constructor
  · intro env tx dto p b h
    exact (update_ok_inv env tx dto p h).2 b
  · rw [create_eq_of_validations envAll 1 dtoExpense50 7 rfl]
    simp only [Except.toOption, Option.bind]
    rw [update_eq_of_validations envAll (builtTx 1 dtoExpense50 7)
      updAmountNeg80 rfl]
    norm_num [builtTx, dtoExpense50, updAmountNeg80, UpdateDto.empty, assign,
      resign, amountOr, updateAccountBalance, reverseAccountBalance,
      updateBalance, bal1000, optTruthy, Ledger.remove, Except.toOption,
      Except.mapError, Except.bind, Option.bind, Option.map]

/-- Witness for `update_balance_protocol_amended`: updating the stored paid
1 → 2 transfer with an empty request nets no balance change on account 2
(reverse then apply of the same snapshot). -/
theorem update_balance_protocol_amended_witness :
    ((update envAll txTransfer12 UpdateDto.empty).toOption.bind fun p =>
      (p.2 bal1000).toOption.map fun b2 => b2 2) = some (some 1000) := by
  obtain ⟨q, hq⟩ : ∃ q, update envAll txTransfer12 UpdateDto.empty = .ok q :=
    ⟨_, update_eq_of_validations envAll txTransfer12 UpdateDto.empty rfl⟩
  rw [hq]
  simp only [Except.toOption, Option.bind]
  rw [update_balance_protocol_amended.1 envAll txTransfer12 UpdateDto.empty q
    bal1000 hq]
  rw [(update_ok_inv envAll txTransfer12 UpdateDto.empty q hq).1]
  norm_num [txTransfer12, UpdateDto.empty, assign, resign, amountOr,
    updateAccountBalance, reverseAccountBalance, updateBalance, bal1000,
    optTruthy, Except.toOption, Except.mapError, Except.bind, Option.map,
    Bind.bind, Except.instMonad]

/-- C7 counterexample: with the clock at 2025-12-31 and a 5-month window,
`getCategoryTrend` returns a series with no entry for September 2025, even
though September lies inside the window (a transaction dated 2025-08-15
would pass the period filter, so the window spans it): the start date
`setMonth(12 - 5)` lands on "Jul 31", and stepping Jul 31 → "Aug 31" →
"Sep 31" = Oct 1 skips September in the zero-fill walk.  The claimed
"exactly one aggregate per calendar month in the window" is false. -/
theorem trend_skips_month_counterexample :
    getCategoryTrend decEnd2025 7 5 [] =
      [⟨(2025, 7), 0⟩, ⟨(2025, 8), 0⟩, ⟨(2025, 10), 0⟩, ⟨(2025, 11), 0⟩,
        ⟨(2025, 12), 0⟩] ∧
    (∀ e ∈ getCategoryTrend decEnd2025 7 5 [], e.month ≠ (2025, 9)) ∧
    dateLe (addMonths decEnd2025 (-5)) ⟨2025, 8, 15⟩ = true ∧
    dateLe ⟨2025, 8, 15⟩ decEnd2025 = true ∧
    (2025, 9) ∈ monthRange (addMonths decEnd2025 (-5)) decEnd2025 := by
  decide

/-- C7 (amended): provided the computed window start
`now.setMonth(now.getMonth() - months)` lands on a day of month at most 28
(so that the repeated `setMonth(getMonth() + 1)` stepping never overflows
a month's length — false for month-end `now` dates, see the
counterexample), `getCategoryTrend` returns a complete, contiguous,
ascending monthly series: its months are exactly the canonical month
window from the start month to `now`'s month, one aggregate per calendar
month with no skip and no duplicate, the series is sorted ascending by
month, and every aggregate whose month matches no paid in-window
transaction of the category carries amount 0. -/
theorem getCategoryTrend_complete (now : Date) (categoryId : ℕ)
    (months : ℕ) (txs : List Tx) (hvalid : now.Valid)
    (htx : ∀ t ∈ txs, t.date.Valid)
    (h28 : (addMonths now (-(months : ℤ))).day ≤ 28) :
    ((getCategoryTrend now categoryId months txs).map (·.month)) =
      monthRange (addMonths now (-(months : ℤ))) now ∧
    (getCategoryTrend now categoryId months txs).Sorted aggLe ∧
    (∀ a ∈ getCategoryTrend now categoryId months txs,
      (∀ t ∈ txs, t.isPaid = true →
        dateLe (addMonths now (-(months : ℤ))) t.date = true →
        dateLe t.date now = true → t.categoryId = some categoryId →
        monthOfDate t.date ≠ a.month) →
      a.amount = 0) := by
  have h31now : now.day ≤ 31 :=
    le_trans hvalid.2.2 (daysInMonth_le now.year now.month0)
  have h1now : 1 ≤ now.day := hvalid.2.1
  obtain ⟨hday1, hdaycase⟩ := addMonths_day now (-(months : ℤ)) h31now h1now
  have hm0s : (addMonths now (-(months : ℤ))).month0 < 12 :=
    addMonths_month0_lt now (-(months : ℤ))
  have hde : (addMonths now (-(months : ℤ))).day ≤ now.day := by
    rcases hdaycase with h | ⟨h3, h29⟩ <;> omega
  set s := addMonths now (-(months : ℤ)) with hs
  set ct := (txs.filter fun t =>
      t.isPaid && dateLe s t.date && dateLe t.date now).filter
      (fun t => t.categoryId = some categoryId) with hct
  have hdef : getCategoryTrend now categoryId months txs =
      (fillMissingMonths (aggregateByMonth ct) s now).insertionSort aggLe :=
    rfl
  have hwalk : monthWalk s now = monthRange s now := by
    unfold monthWalk monthRange
    exact monthWalkAux_spec now h31now _ s h28 hday1 hde hm0s (by omega)
  have hwnd : (monthWalk s now).Nodup := by
    rw [hwalk]
    exact monthRange_nodup s now
  have hsub : ∀ x ∈ (aggregateByMonth ct).map (·.month),
      x ∈ monthWalk s now := by
    intro x hx
    obtain ⟨t, htc, hxt⟩ := aggregate_months_sub ct x hx
    rw [hct] at htc
    rcases List.mem_filter.1 htc with ⟨htp, hcat⟩
    rcases List.mem_filter.1 htp with ⟨htxs, hpred⟩
    rw [Bool.and_eq_true, Bool.and_eq_true] at hpred
    obtain ⟨⟨hpaid, hsle⟩, hlen⟩ := hpred
    have hv := htx t htxs
    have h1t : 1 ≤ t.date.day := hv.2.1
    have h31t : t.date.day ≤ 31 := le_trans hv.2.2 (daysInMonth_le _ _)
    have hidx1 : monthIdx s ≤ monthIdx t.date :=
      monthIdx_le_of_dateLe s t.date hsle hday1 h31t
    have hidx2 : monthIdx t.date ≤ monthIdx now :=
      monthIdx_le_of_dateLe t.date now hlen h1t h31now
    rw [hwalk]
    unfold monthRange
    subst hxt
    rw [monthOfDate_eq_ymOfIdx t.date hv.1]
    refine List.mem_map.2 ⟨(monthIdx t.date - monthIdx s).toNat,
      List.mem_range.2 (by omega), ?_⟩
    congr 1
    omega
  have hnd := aggregate_months_nodup ct
  have hperm := fillMissingMonths_months_perm (aggregateByMonth ct) s now
    hsub hnd hwnd
  have hsort : ((fillMissingMonths (aggregateByMonth ct) s now
      ).insertionSort aggLe).Sorted aggLe :=
    List.sorted_insertionSort aggLe _
  have hpermS : ((((fillMissingMonths (aggregateByMonth ct) s now
      ).insertionSort aggLe).map (·.month))).Perm (monthRange s now) := by
    refine ((List.perm_insertionSort aggLe _).map (·.month)).trans ?_
    rw [← hwalk]
    exact hperm
  have hRstrict : (monthRange s now).Pairwise
      (fun a b => ymKey a < ymKey b) := by
    unfold monthRange
    rw [List.pairwise_map]
    refine List.Pairwise.imp ?_ (List.pairwise_lt_range _)
    intro a b hab
    rw [ymKey_ymOfIdx, ymKey_ymOfIdx]
    omega
  have heq := sorted_months_eq _ _ hpermS hsort hRstrict
  rw [hdef]
  refine ⟨heq, hsort, ?_⟩
  intro a ha hnone
  have ha2 : a ∈ fillMissingMonths (aggregateByMonth ct) s now :=
    (List.perm_insertionSort aggLe _).mem_iff.1 ha
  unfold fillMissingMonths at ha2
  rcases List.mem_append.1 ha2 with hdata | hzero
  · exfalso
    have hm : a.month ∈ (aggregateByMonth ct).map (·.month) :=
      List.mem_map_of_mem _ hdata
    obtain ⟨t, htc, hxt⟩ := aggregate_months_sub ct a.month hm
    rw [hct] at htc
    rcases List.mem_filter.1 htc with ⟨htp, hcat⟩
    rcases List.mem_filter.1 htp with ⟨htxs, hpred⟩
    rw [Bool.and_eq_true, Bool.and_eq_true] at hpred
    obtain ⟨⟨hpaid, hsle⟩, hlen⟩ := hpred
    rw [decide_eq_true_eq] at hcat
    exact hnone t htxs hpaid hsle hlen hcat hxt.symm
  · rcases List.mem_map.1 hzero with ⟨ym, _, hya⟩
    rw [← hya]

/-- Witness for `getCategoryTrend_complete`: with the clock at 2025-11-15
(start date 2025-09-15, day 15 ≤ 28) and a 2-month window over an empty
store, the series' months are exactly the canonical 3-month window. -/
theorem getCategoryTrend_complete_witness :
    ((getCategoryTrend ⟨2025, 10, 15⟩ 3 2 []).map (·.month)) =
      monthRange (addMonths ⟨2025, 10, 15⟩ (-((2 : ℕ) : ℤ))) ⟨2025, 10, 15⟩ :=
  (getCategoryTrend_complete ⟨2025, 10, 15⟩ 3 2 [] (by decide)
    (by simp) (by decide)).1

end FinanceApi
